import Mathlib

/-!
# Ray tracer geometry core (`vec_math.h`, `Plane.cpp`)

A shallow embedding of the vector library and the ray/primitive intersection
routines, followed by theorems about them.

## Arithmetic

A C++ `float` is embedded as an IEEE-754 binary32 value (`float`): NaN, the two
infinities, or a finite number `(-1)^neg * m * 2^e`.  The operations `+ - * /`
and `sqrt` compute the exact result and round it to the nearest binary32 value,
ties to even, with gradual underflow, overflow to an infinity, signed zeros and
the IEEE rules for NaN and the infinities; `<` and `==` are the IEEE comparisons.
The routines are written over this type, operation for operation as in the
source, so that they can be evaluated on concrete inputs.

`float.toRat` gives the rational value of a finite `float`, and `float.IsVal x q`
says that `x` is finite with value `q`; the theorems that relate the routines to
exact geometry assume `IsVal` of the quantities that a routine compares or
returns, that is, that those quantities are computed without rounding error.

`sfrand` works on the bit pattern of a single: the word is a `Nat`, and
`float_of_bits` gives the rational number that the pattern denotes.
-/

set_option maxRecDepth 100000

namespace RayTracer

/-! ## Definitions -/

/-- A C++ `float`, an IEEE-754 binary32 value: NaN, an infinity (`neg` for `-∞`), or a finite
number `(-1)^neg * m * 2^e`.  The operations below return finite values in canonical form:
`m < 2^24` and `-149 ≤ e ≤ 104`, with `2^23 ≤ m` unless `e = -149` (subnormals and the two
zeros `fin false 0 (-149)`, `fin true 0 (-149)`). -/
inductive float where
  | nan : float
  | inf (neg : Bool) : float
  | fin (neg : Bool) (m : Nat) (e : Int) : float
deriving DecidableEq

/-- The number of binary digits of `n`, for `n < 2^fuel`. -/
def bitlen : Nat → Nat → Nat
  | 0, _ => 0
  | fuel + 1, n => if n = 0 then 0 else bitlen fuel (n / 2) + 1

/-- Bit-by-bit integer square root: the largest `r + x` with `x < 2^k` and `(r + x)² ≤ n`. -/
def isqrtAux : Nat → Nat → Nat → Nat
  | 0, _, r => r
  | k + 1, n, r =>
    if (r + 2 ^ k) * (r + 2 ^ k) ≤ n then isqrtAux k n (r + 2 ^ k) else isqrtAux k n r

/-- The integer square root of `n < 2^128`. -/
def isqrt (n : Nat) : Nat := isqrtAux 64 n 0

namespace float

/-- The binary32 value nearest to `(-1)^neg * (m + t) * 2^e`, ties to even, where `0 < t < 1`
if `sticky` and `t = 0` otherwise (`sticky` is used only with `m ≥ 2^26`).  A result of
magnitude `2^128` or more is an infinity. -/
def round (neg : Bool) (m : Nat) (e : Int) (sticky : Bool) : float :=
  let L : Int := bitlen 512 m
  let e1 : Int := max (e + L - 24) (-149)
  if e1 ≤ e then
    (if e1 > 104 then inf neg else fin neg (m * 2 ^ (e - e1).toNat) e1)
  else
    let sh : Nat := (e1 - e).toNat
    let q := m / 2 ^ sh
    let r := m % 2 ^ sh
    let half := 2 ^ (sh - 1)
    let up : Bool := decide (r > half) || (decide (r = half) && (sticky || decide (q % 2 = 1)))
    let q1 := if up then q + 1 else q
    let q2 := if q1 = 2 ^ 24 then 2 ^ 23 else q1
    let e2 : Int := if q1 = 2 ^ 24 then e1 + 1 else e1
    if e2 > 104 then inf neg else fin neg q2 e2

/-- Unary minus. -/
def neg : float → float
  | nan => nan
  | inf s => inf (!s)
  | fin s m e => fin (!s) m e

/-- Float addition. -/
def add : float → float → float
  | nan, _ => nan
  | _, nan => nan
  | inf s, inf t => if s = t then inf s else nan
  | inf s, fin _ _ _ => inf s
  | fin _ _ _, inf t => inf t
  | fin s m e, fin t n f =>
    let e0 := min e f
    let a : Int := (if s then -1 else 1) * (m * 2 ^ (e - e0).toNat : Nat)
    let b : Int := (if t then -1 else 1) * (n * 2 ^ (f - e0).toNat : Nat)
    let c := a + b
    if c = 0 then fin (s && t) 0 (-149)
    else round (decide (c < 0)) c.natAbs e0 false

/-- Float subtraction, `x + (-y)`. -/
def sub (x y : float) : float := add x (neg y)

/-- Float multiplication. -/
def mul : float → float → float
  | nan, _ => nan
  | _, nan => nan
  | inf s, inf t => inf (xor s t)
  | inf s, fin t n _ => if n = 0 then nan else inf (xor s t)
  | fin s m _, inf t => if m = 0 then nan else inf (xor s t)
  | fin s m e, fin t n f =>
    if m * n = 0 then fin (xor s t) 0 (-149) else round (xor s t) (m * n) (e + f) false

/-- Float division. -/
def div : float → float → float
  | nan, _ => nan
  | _, nan => nan
  | inf _, inf _ => nan
  | inf s, fin t _ _ => inf (xor s t)
  | fin s _ _, inf t => fin (xor s t) 0 (-149)
  | fin s m e, fin t n f =>
    if n = 0 then (if m = 0 then nan else inf (xor s t))
    else if m = 0 then fin (xor s t) 0 (-149)
    else
      let k : Nat := 26 + bitlen 512 n
      let N := m * 2 ^ k
      round (xor s t) (N / n) (e - f - k) (decide (N % n ≠ 0))

/-- The function `sqrt` on a `float`. -/
def sqrt : float → float
  | nan => nan
  | inf s => if s then nan else inf false
  | fin s m e =>
    if m = 0 then fin s 0 (-149)
    else if s then nan
    else
      let k : Nat := if (e - 52) % 2 = 0 then 52 else 53
      let N := m * 2 ^ k
      let r := isqrt N
      round false r ((e - k) / 2) (decide (r * r ≠ N))

/-- The comparison `x < y`. -/
def lt : float → float → Bool
  | nan, _ => false
  | _, nan => false
  | inf s, inf t => s && !t
  | inf s, fin _ _ _ => s
  | fin _ _ _, inf t => !t
  | fin s m e, fin t n f =>
    let e0 := min e f
    let a : Int := (if s then -1 else 1) * (m * 2 ^ (e - e0).toNat : Nat)
    let b : Int := (if t then -1 else 1) * (n * 2 ^ (f - e0).toNat : Nat)
    decide (a < b)

/-- The comparison `x == y`: false when an operand is NaN, true for `+0 == -0`. -/
def eq : float → float → Bool
  | nan, _ => false
  | _, nan => false
  | inf s, inf t => decide (s = t)
  | inf _, fin _ _ _ => false
  | fin _ _ _, inf _ => false
  | fin s m e, fin t n f => !(lt (fin s m e) (fin t n f)) && !(lt (fin t n f) (fin s m e))

/-- The comparison `x != y`. -/
def ne (x y : float) : Bool := !(eq x y)

/-- The `float` nearest to the natural number `n` (a literal such as `1.0f`, `3.0f`). -/
def ofNat (n : Nat) : float := if n = 0 then fin false 0 (-149) else round false n 0 false

instance : Add float := ⟨add⟩
instance : Sub float := ⟨sub⟩
instance : Mul float := ⟨mul⟩
instance : Div float := ⟨div⟩
instance : Neg float := ⟨neg⟩
instance (n : Nat) : OfNat float n := ⟨ofNat n⟩
instance : LT float := ⟨fun x y => lt x y = true⟩
instance (x y : float) : Decidable (x < y) := inferInstanceAs (Decidable (lt x y = true))

/-- The constant `FLT_MAX`, `(2^24 - 1) * 2^104`. -/
def FLT_MAX : float := fin false (2 ^ 24 - 1) 104

/-- The rational value of a finite `float` (`0` for NaN and the infinities). -/
def toRat : float → ℚ
  | nan => 0
  | inf _ => 0
  | fin s m e => (if s then -1 else 1) * (m : ℚ) * (2 : ℚ) ^ e

/-- The `float` is finite. -/
def isFinite : float → Bool
  | fin _ _ _ => true
  | _ => false

/-- The `float` `x` is finite and its value is `q`. -/
def IsVal (x : float) (q : ℚ) : Prop := x.isFinite = true ∧ x.toRat = q

/-- The two floats are the same, or are zeros that differ at most in sign. -/
def EqZ (x y : float) : Prop := x = y ∨ ∃ s t e, x = fin s 0 e ∧ y = fin t 0 e

end float

/-- The struct `vec3`: three floats. -/
structure vec3 (F : Type) where
  x : F
  y : F
  z : F
deriving DecidableEq

/-- The three data members of `vec3`, as targets of a `float&`. -/
inductive vec3.member where
  | x
  | y
  | z
deriving DecidableEq

namespace vec3

variable {F : Type}

/-- The member `vec3::dot`. -/
def dot [Add F] [Mul F] (a b : vec3 F) : F := a.x * b.x + a.y * b.y + a.z * b.z

/-- The member `vec3::cross`. -/
def cross [Sub F] [Mul F] (a b : vec3 F) : vec3 F :=
  ⟨a.y * b.z - a.z * b.y, a.z * b.x - a.x * b.z, a.x * b.y - a.y * b.x⟩

/-- The member `vec3::length`. -/
def length (v : vec3 float) : float := float.sqrt (v.x * v.x + v.y * v.y + v.z * v.z)

/-- The member `vec3::normalize`, which scales the receiver in place and returns `*this`: the
receiver after the call, and the value returned. -/
def normalize (v : vec3 float) : vec3 float × vec3 float :=
  let len := v.length
  let self : vec3 float :=
    if len.ne 0 then
      let rlen := 1 / len
      ⟨v.x * rlen, v.y * rlen, v.z * rlen⟩
    else v
  (self, self)

/-- The const overload `float operator[](int i) const`: the component read. -/
def get (v : vec3 F) (i : Int) : F :=
  if i = 0 then v.x else if i = 1 then v.y else v.z

/-- The non-const overload `float& operator[](int i)`: the member that the returned reference
designates. -/
def getRef (i : Int) : member :=
  if i = 0 then member.x else if i = 1 then member.y else member.z

/-- The float read through a reference to a member of `v`. -/
def read (v : vec3 F) (m : member) : F :=
  match m with
  | member.x => v.x
  | member.y => v.y
  | member.z => v.z

/-- Unary `operator-`. -/
instance [Neg F] : Neg (vec3 F) := ⟨fun a => ⟨-a.x, -a.y, -a.z⟩⟩

/-- The overload `vec3 * vec3` of `VEC_OP(*)`. -/
instance [Mul F] : Mul (vec3 F) := ⟨fun a b => ⟨a.x * b.x, a.y * b.y, a.z * b.z⟩⟩

/-- The overload `vec3 + vec3` of `VEC_OP(+)`. -/
instance [Add F] : Add (vec3 F) := ⟨fun a b => ⟨a.x + b.x, a.y + b.y, a.z + b.z⟩⟩

/-- The overload `vec3 - vec3` of `VEC_OP(-)`. -/
instance [Sub F] : Sub (vec3 F) := ⟨fun a b => ⟨a.x - b.x, a.y - b.y, a.z - b.z⟩⟩

/-- The overload `float * vec3` of `VEC_OP(*)`. -/
instance [Mul F] : HMul F (vec3 F) (vec3 F) := ⟨fun s b => ⟨s * b.x, s * b.y, s * b.z⟩⟩

/-- The overload `float / vec3` of `VEC_OP(/)`. -/
instance [Div F] : HDiv F (vec3 F) (vec3 F) := ⟨fun s b => ⟨s / b.x, s / b.y, s / b.z⟩⟩

/-- The rational values of the components of a vector of finite floats. -/
def toRat (v : vec3 float) : vec3 ℚ := ⟨v.x.toRat, v.y.toRat, v.z.toRat⟩

end vec3

/-- The free function `normalize`. -/
def normalize (v : vec3 float) : vec3 float :=
  let len := v.length
  if len.ne 0 then
    let rlen := 1 / len
    ⟨v.x * rlen, v.y * rlen, v.z * rlen⟩
  else v

/-- The free function `cross`. -/
def cross {F : Type} [Sub F] [Mul F] (a b : vec3 F) : vec3 F :=
  ⟨a.y * b.z - a.z * b.y, a.z * b.x - a.x * b.z, a.x * b.y - a.y * b.x⟩

/-- The function `ScalarTriple`: `cross(u,v).dot(w)`. -/
def ScalarTriple {F : Type} [Add F] [Sub F] [Mul F] (u v w : vec3 F) : F := (cross u v).dot w

/-- The struct `plane_t`. -/
structure plane_t where
  position : vec3 float
  normal : vec3 float
  d : float
deriving DecidableEq

/-- The struct `ray_t`. -/
structure ray_t where
  origin : vec3 float
  dir : vec3 float
deriving DecidableEq

/-- The enum `object_type`. -/
inductive object_type where
  | SPHERE
  | PLANE
deriving DecidableEq

/-- The struct `Intersection_t`; `Mat` is the type of the `Material*` back-reference. -/
structure Intersection_t (Mat : Type) where
  t : float
  normal : vec3 float
  isInside : Bool
  mat : Mat

/-- The class `Plane`: the stored plane and the type tag. -/
structure Plane where
  mPlane : plane_t
  type : object_type

/-- The constructor `plane_t(position, normal)`, which sets `d = -(normal.dot(position))`. -/
def plane_t.ctor (position normal : vec3 float) : plane_t :=
  ⟨position, normal, -(normal.dot position)⟩

namespace ray_t

/-- The method `ray_t::intersectPlane`. -/
def intersectPlane (r : ray_t) (p : plane_t) : float :=
  let nDotDir := p.normal.dot r.dir
  if nDotDir.ne 0 then
    let nDotO := p.normal.dot r.origin
    let t := (p.d - nDotO) / nDotDir
    if t < 0 then float.FLT_MAX else t
  else float.FLT_MAX

/-- The method `ray_t::intersectSegmentPlane`. -/
def intersectSegmentPlane (ray : ray_t) (a b c : vec3 float) : float :=
  let n := (b - a).cross (c - a)
  let d := n.dot a
  let t := (d - n.dot ray.origin) / n.dot ray.dir
  if t < 0 then float.FLT_MAX else t

/-- The method `ray_t::intersectTriangle`: the returned `t` and the value of `geometric_normal`
after the call. -/
def intersectTriangle (r : ray_t) (a b c : vec3 float) (geometric_normal : vec3 float) :
    float × vec3 float :=
  let p := r.origin
  let q := r.origin + r.dir
  let pq := q - p
  let pa := a - p
  let pb := b - p
  let pc := c - p
  let u := ScalarTriple pq pc pb
  if u < 0 then (float.FLT_MAX, geometric_normal) else
  let v := ScalarTriple pq pa pc
  if v < 0 then (float.FLT_MAX, geometric_normal) else
  let w := ScalarTriple pq pb pa
  if w < 0 then (float.FLT_MAX, geometric_normal) else
  let geometric_normal := normalize ((b - a).cross (c - a))
  let t := r.intersectSegmentPlane a b c
  (t, geometric_normal)

end ray_t

/-- The constructor `Plane::Plane(plane_t plane)`. -/
def Plane.ctor (plane : plane_t) : Plane := ⟨plane, object_type.PLANE⟩

/-- The method `Plane::intersect`: the returned flag and the record `hit` after the call. -/
def Plane.intersect {Mat : Type} (self : Plane) (ray : ray_t) (hit : Intersection_t Mat) :
    Bool × Intersection_t Mat :=
  let t := ray.intersectPlane self.mPlane
  if t.ne float.FLT_MAX then
    (true, { hit with t := t, normal := self.mPlane.normal })
  else (false, hit)

/-- The value of the IEEE-754 single with bit pattern `w` (sign bit 31, biased exponent in bits
30..23, fraction in bits 22..0), which is what `*((float*)&a)` reads; `none` for the infinities
and NaNs (exponent field 255). -/
def float_of_bits (w : Nat) : Option ℚ :=
  let s : Nat := (w / 2 ^ 31) % 2
  let e : Nat := (w / 2 ^ 23) % 256
  let f : Nat := w % 2 ^ 23
  let sign : ℚ := if s = 1 then -1 else 1
  if e = 255 then none
  else if e = 0 then some (sign * ((f : ℚ) / 2 ^ 23) * 2 ^ (-126 : ℤ))
  else some (sign * (1 + (f : ℚ) / 2 ^ 23) * 2 ^ ((e : ℤ) - 127))

/-- The function `sfrand`; `rand1` and `rand2` are the values of the left and the right call of
`rand()`, and the conversion to `unsigned int` keeps the low 32 bits. -/
def sfrand (rand1 rand2 : Nat) : Option ℚ :=
  let a : Nat := ((rand1 <<< 16) ||| rand2) % 2 ^ 32
  let a : Nat := (a &&& 0x007fffff) ||| 0x40000000
  (float_of_bits a).map (fun x => x - 3)

/-! ### The locals of the intersection routines

The intermediate floats of the routines above, under the names that the source gives them, and
the rational numbers that the same formulas give in exact arithmetic from the values of the
inputs (`exact_b`, `exact_u`, ...).  A hypothesis such as
`(r.sphere_b center).IsVal (r.exact_b center)` says that the routine computes `b` without
rounding error. -/

/-- The components of `v` are finite and have the values of the components of `q`. -/
def vec3.IsVal (v : vec3 float) (q : vec3 ℚ) : Prop :=
  v.x.IsVal q.x ∧ v.y.IsVal q.y ∧ v.z.IsVal q.z

/-- The local `n = (b-a).cross(c-a)` of `intersectSegmentPlane`, also the argument of
`normalize` in `intersectTriangle`. -/
def tri_n (a b c : vec3 float) : vec3 float := (b - a).cross (c - a)

namespace ray_t

/-- The local `u = ScalarTriple(pq, pc, pb)` of `intersectTriangle`. -/
def tri_u (r : ray_t) (b c : vec3 float) : float :=
  ScalarTriple (r.origin + r.dir - r.origin) (c - r.origin) (b - r.origin)

/-- The local `v = ScalarTriple(pq, pa, pc)` of `intersectTriangle`. -/
def tri_v (r : ray_t) (a c : vec3 float) : float :=
  ScalarTriple (r.origin + r.dir - r.origin) (a - r.origin) (c - r.origin)

/-- The local `w = ScalarTriple(pq, pb, pa)` of `intersectTriangle`. -/
def tri_w (r : ray_t) (a b : vec3 float) : float :=
  ScalarTriple (r.origin + r.dir - r.origin) (b - r.origin) (a - r.origin)

/-- The local `t = (d - n.dot(origin)) / n.dot(dir)` of `intersectSegmentPlane`, with
`d = n.dot(a)`. -/
def segment_t (r : ray_t) (a b c : vec3 float) : float :=
  ((tri_n a b c).dot a - (tri_n a b c).dot r.origin) / (tri_n a b c).dot r.dir

end ray_t

/-! ## Theorems -/

/-! ### `intersectPlane` and `Plane::intersect` -/

/-- The routine `intersectPlane` as one expression. -/
theorem intersectPlane_eq (r : ray_t) (p : plane_t) :
    r.intersectPlane p =
      if (p.normal.dot r.dir).ne 0 = true then
        (if (p.d - p.normal.dot r.origin) / p.normal.dot r.dir < 0 then float.FLT_MAX
          else (p.d - p.normal.dot r.origin) / p.normal.dot r.dir)
      else float.FLT_MAX := rfl

/-- C1, evaluated: for the plane built from position `(0,0,1)` and normal `(0,0,1)`, the ray
from `(0,0,5)` along `(0,0,-1)` is reported hit at `t = 6`, and the hit point `(0,0,-1)` is off
the plane: `normal·(origin + t*dir - position) = -2`. -/
theorem intersectPlane_ctor_off_plane :
    (⟨⟨0, 0, 5⟩, ⟨0, 0, -1⟩⟩ : ray_t).intersectPlane (plane_t.ctor ⟨0, 0, 1⟩ ⟨0, 0, 1⟩) = 6 ∧
      (⟨0, 0, 1⟩ : vec3 float).dot
        ((⟨0, 0, 5⟩ : vec3 float) + (6 : float) * (⟨0, 0, -1⟩ : vec3 float) - ⟨0, 0, 1⟩)
        = -2 := by
  constructor
  · decide
  · decide

/-- C11: when the product `normal·dir` that the routine computes is zero, `intersectPlane`
returns the sentinel, whatever the origin and the plane's `d`; and whatever it returns is the
sentinel or the quotient by a non-zero `normal·dir`: the quotient is formed only after
`nDotDir != 0` has been tested. -/
theorem intersectPlane_parallel (r : ray_t) (p : plane_t) :
    ((p.normal.dot r.dir).eq 0 = true →
      ∀ (origin : vec3 float) (d : float),
        (⟨origin, r.dir⟩ : ray_t).intersectPlane ⟨p.position, p.normal, d⟩ = float.FLT_MAX) ∧
    (r.intersectPlane p = float.FLT_MAX ∨
      ((p.normal.dot r.dir).eq 0 = false ∧
        r.intersectPlane p = (p.d - p.normal.dot r.origin) / p.normal.dot r.dir)) := by
  constructor
  · intro h origin d
    rw [intersectPlane_eq]
    simp [float.ne, h]
  · rw [intersectPlane_eq]
    by_cases h : (p.normal.dot r.dir).eq 0 = true
    · left
      simp [float.ne, h]
    · have h' : (p.normal.dot r.dir).eq 0 = false := by simpa using h
      by_cases ht : (p.d - p.normal.dot r.origin) / p.normal.dot r.dir < 0
      · left
        simp [float.ne, h', ht]
      · right
        refine ⟨h', ?_⟩
        simp [float.ne, h', ht]

/-- Witness for C11: a ray along `+x` and the plane `z = 0`, from any origin and with any `d`. -/
theorem intersectPlane_parallel_witness :
    ∀ (origin : vec3 float) (d : float),
      (⟨origin, ⟨1, 0, 0⟩⟩ : ray_t).intersectPlane ⟨⟨0, 0, 0⟩, ⟨0, 0, 1⟩, d⟩ = float.FLT_MAX :=
  (intersectPlane_parallel (⟨⟨0, 0, 5⟩, ⟨1, 0, 0⟩⟩ : ray_t) ⟨⟨0, 0, 0⟩, ⟨0, 0, 1⟩, 0⟩).1
    (by decide)

/-- C9: `Plane::intersect` returns true exactly when `intersectPlane` returns a value `t` with
`t != FLT_MAX`; it then stores that value in `hit.t` and the plane normal in `hit.normal`; when
it returns false the record is unchanged; `hit.mat` and `hit.isInside` are never changed.  For
the ray from `(0,0,5)` along `(0,0,-1)` and the plane at the origin with normal `(0,0,1)` the
result is true with `t = 5` and normal `(0,0,1)`. -/
theorem Plane_intersect_frame {Mat : Type} (self : Plane) (ray : ray_t)
    (hit : Intersection_t Mat) :
    ((self.intersect ray hit).1 = true ↔
      (ray.intersectPlane self.mPlane).ne float.FLT_MAX = true) ∧
    ((self.intersect ray hit).1 = true →
      (self.intersect ray hit).2.t = ray.intersectPlane self.mPlane ∧
      (self.intersect ray hit).2.normal = self.mPlane.normal) ∧
    ((self.intersect ray hit).1 = false → (self.intersect ray hit).2 = hit) ∧
    (self.intersect ray hit).2.mat = hit.mat ∧
    (self.intersect ray hit).2.isInside = hit.isInside ∧
    (Plane.ctor (plane_t.ctor ⟨0, 0, 0⟩ ⟨0, 0, 1⟩)).intersect ⟨⟨0, 0, 5⟩, ⟨0, 0, -1⟩⟩ hit =
      (true, { hit with t := 5, normal := ⟨0, 0, 1⟩ }) := by
  refine ⟨?_, ?_, ?_, ?_, ?_, ?_⟩
  · unfold Plane.intersect
    by_cases h : (ray.intersectPlane self.mPlane).ne float.FLT_MAX = true <;> simp [h]
  · unfold Plane.intersect
    by_cases h : (ray.intersectPlane self.mPlane).ne float.FLT_MAX = true <;> simp [h]
  · unfold Plane.intersect
    by_cases h : (ray.intersectPlane self.mPlane).ne float.FLT_MAX = true <;> simp [h]
  · unfold Plane.intersect
    by_cases h : (ray.intersectPlane self.mPlane).ne float.FLT_MAX = true <;> simp [h]
  · unfold Plane.intersect
    by_cases h : (ray.intersectPlane self.mPlane).ne float.FLT_MAX = true <;> simp [h]
  · have h5 : (⟨⟨0, 0, 5⟩, ⟨0, 0, -1⟩⟩ : ray_t).intersectPlane
        (plane_t.ctor ⟨0, 0, 0⟩ ⟨0, 0, 1⟩) = 5 := by decide
    have hne : (5 : float).ne float.FLT_MAX = true := by decide
    have hn : (plane_t.ctor ⟨0, 0, 0⟩ ⟨0, 0, 1⟩).normal = ⟨0, 0, 1⟩ := rfl
    simp only [Plane.intersect, Plane.ctor, h5, hne, hn, if_true]

/-! ### `intersectSegmentPlane` and `intersectTriangle` -/

/-- C8, evaluated: for the ray from `(-1, 1/4, 0)` along `(1, 0, 0)`, which lies in the plane of
the triangle `(0,0,0), (1,0,0), (0,1,0)`, the three edge values are `0`, the quotient of
`intersectSegmentPlane` is `0/0`, and both routines return NaN: neither the sentinel nor a
number `t ≥ 0`. -/
theorem intersectTriangle_coplanar_nan :
    (⟨⟨-1, 1 / 4, 0⟩, ⟨1, 0, 0⟩⟩ : ray_t).intersectSegmentPlane
        ⟨0, 0, 0⟩ ⟨1, 0, 0⟩ ⟨0, 1, 0⟩ = float.nan ∧
    ((⟨⟨-1, 1 / 4, 0⟩, ⟨1, 0, 0⟩⟩ : ray_t).intersectTriangle
        ⟨0, 0, 0⟩ ⟨1, 0, 0⟩ ⟨0, 1, 0⟩ ⟨0, 0, 0⟩).1 = float.nan := by
  constructor
  · decide
  · decide

/-- C10, evaluated: the ray from `(1/4, 1/4, -1)` along `(0, 0, -1)` passes the three edge tests
of the triangle `(0,0,0), (1,0,0), (0,1,0)`, which lies behind it (`t = -1`); the routine
returns the sentinel after it has overwritten `geometric_normal`, here `(1,0,0)`, with
`(0,0,1)`. -/
theorem intersectTriangle_miss_overwrites_normal :
    (⟨⟨1 / 4, 1 / 4, -1⟩, ⟨0, 0, -1⟩⟩ : ray_t).intersectTriangle
        ⟨0, 0, 0⟩ ⟨1, 0, 0⟩ ⟨0, 1, 0⟩ ⟨1, 0, 0⟩ = (float.FLT_MAX, ⟨0, 0, 1⟩) ∧
    (⟨0, 0, 1⟩ : vec3 float) ≠ ⟨1, 0, 0⟩ := by
  constructor
  · decide
  · decide

/-! ### Indexed access -/

/-- C16: for every index `i`, `v[0]` is `x`, `v[1]` is `y`, and `v[i]` is `z` for every other
`i` (`2`, larger, or negative); both overloads are total and read the same component. -/
theorem operator_index {G : Type} (v : vec3 G) (i : Int) :
    v.get 0 = v.x ∧ v.get 1 = v.y ∧ (i ≠ 0 → i ≠ 1 → v.get i = v.z) ∧
    v.get 2 = v.z ∧ (2 < i → v.get i = v.z) ∧ (i < 0 → v.get i = v.z) ∧
    v.read (vec3.getRef i) = v.get i := by
  have hz : i ≠ 0 → i ≠ 1 → v.get i = v.z := by
    intro h0 h1
    simp [vec3.get, h0, h1]
  refine ⟨by simp [vec3.get], by simp [vec3.get], hz, by simp [vec3.get], ?_, ?_, ?_⟩
  · intro h
    exact hz (by omega) (by omega)
  · intro h
    exact hz (by omega) (by omega)
  · unfold vec3.getRef vec3.get
    split_ifs <;> rfl

/-- Witness for C16: index `-1` reads `z`. -/
theorem operator_index_witness : (⟨1, 2, 3⟩ : vec3 ℚ).get (-1) = 3 :=
  (operator_index (⟨1, 2, 3⟩ : vec3 ℚ) (-1)).2.2.2.2.2.1 (by norm_num)

/-! ### Values of finite floats -/

namespace float

theorem IsVal.finite {x : float} {q : ℚ} (h : x.IsVal q) : ∃ s m e, x = fin s m e := by
  cases x with
  | nan => exact absurd h.1 (by simp [isFinite])
  | inf s => exact absurd h.1 (by simp [isFinite])
  | fin s m e => exact ⟨s, m, e, rfl⟩

theorem isVal_zero : (0 : float).IsVal 0 := by
  refine ⟨rfl, ?_⟩
  show toRat (fin false 0 (-149)) = 0
  simp [toRat]

theorem IsVal.neg {x : float} {q : ℚ} (h : x.IsVal q) : (-x).IsVal (-q) := by
  obtain ⟨s, m, e, rfl⟩ := h.finite
  refine ⟨rfl, ?_⟩
  have h2 := h.2
  show toRat (fin (!s) m e) = -q
  rw [← h2]
  cases s <;> simp [toRat]

/-- The value of a finite float as an integer multiple of `2^e0`, for `e0 ≤ e`. -/
theorem toRat_scaled (s : Bool) (m : Nat) (e e0 : Int) (h : e0 ≤ e) :
    toRat (fin s m e) =
      (((if s then -1 else 1) * ((m * 2 ^ (e - e0).toNat : Nat) : Int) : Int) : ℚ)
        * (2 : ℚ) ^ e0 := by
  have hk : ((e - e0).toNat : Int) = e - e0 := Int.toNat_of_nonneg (by omega)
  have hpow : (2 : ℚ) ^ e = (2 : ℚ) ^ (e - e0).toNat * (2 : ℚ) ^ e0 := by
    rw [← zpow_natCast, ← zpow_add₀ (by norm_num : (2 : ℚ) ≠ 0), hk]
    congr 1
    omega
  simp only [toRat, hpow]
  cases s <;> push_cast <;> ring

/-- On finite floats `<` is the order of the values. -/
theorem lt_fin_iff (s : Bool) (m : Nat) (e : Int) (t : Bool) (n : Nat) (f : Int) :
    lt (fin s m e) (fin t n f) = true ↔ toRat (fin s m e) < toRat (fin t n f) := by
  rw [toRat_scaled s m e (min e f) (min_le_left e f),
    toRat_scaled t n f (min e f) (min_le_right e f)]
  have hpos : (0 : ℚ) < (2 : ℚ) ^ (min e f) := zpow_pos (by norm_num) _
  rw [mul_lt_mul_right hpos, Int.cast_lt]
  simp only [lt, decide_eq_true_eq]

theorem IsVal.lt_iff {x y : float} {p q : ℚ} (hx : x.IsVal p) (hy : y.IsVal q) :
    x < y ↔ p < q := by
  obtain ⟨s, m, e, rfl⟩ := hx.finite
  obtain ⟨t, n, f, rfl⟩ := hy.finite
  rw [← hx.2, ← hy.2]
  exact lt_fin_iff s m e t n f

theorem IsVal.lt_zero_iff {x : float} {p : ℚ} (hx : x.IsVal p) : x < 0 ↔ p < 0 :=
  hx.lt_iff isVal_zero

/-- On finite floats `==` is equality of the values. -/
theorem IsVal.eq_iff {x y : float} {p q : ℚ} (hx : x.IsVal p) (hy : y.IsVal q) :
    x.eq y = true ↔ p = q := by
  obtain ⟨s, m, e, rfl⟩ := hx.finite
  obtain ⟨t, n, f, rfl⟩ := hy.finite
  have h1 := lt_fin_iff s m e t n f
  have h2 := lt_fin_iff t n f s m e
  rw [hx.2, hy.2] at h1 h2
  simp only [eq, Bool.and_eq_true, Bool.not_eq_true', ← Bool.not_eq_true, h1, h2, not_lt]
  constructor
  · rintro ⟨a, b⟩
    exact le_antisymm b a
  · rintro rfl
    exact ⟨le_refl _, le_refl _⟩

end float

theorem bitlen_le (fuel : Nat) : ∀ (k n : Nat), n < 2 ^ k → bitlen fuel n ≤ k := by
  induction fuel with
  | zero => intro k n _; simp [bitlen]
  | succ fuel ih =>
    intro k n hn
    unfold bitlen
    split_ifs with h0
    · exact Nat.zero_le k
    · cases k with
      | zero =>
        exfalso
        simp at hn
        exact h0 hn
      | succ k =>
        have : n / 2 < 2 ^ k := by
          rw [Nat.div_lt_iff_lt_mul (by norm_num)]
          rw [pow_succ] at hn
          exact hn
        have := ih k (n / 2) this
        omega

namespace float

/-- Rounding is exact when no digit has to be dropped. -/
theorem round_of_le (s : Bool) (m : Nat) (e : Int)
    (h1 : max (e + (bitlen 512 m : Int) - 24) (-149) ≤ e)
    (h2 : max (e + (bitlen 512 m : Int) - 24) (-149) ≤ 104) :
    round s m e false =
      fin s (m * 2 ^ (e - max (e + (bitlen 512 m : Int) - 24) (-149)).toNat)
        (max (e + (bitlen 512 m : Int) - 24) (-149)) := by
  unfold round
  simp only [h1, if_true, gt_iff_lt, not_lt.mpr h2, if_false]

theorem toRat_fin_shift (s : Bool) (m : Nat) (e e1 : Int) (h : e1 ≤ e) :
    toRat (fin s (m * 2 ^ (e - e1).toNat) e1) = toRat (fin s m e) := by
  have hk : ((e - e1).toNat : Int) = e - e1 := Int.toNat_of_nonneg (by omega)
  have hpow : (2 : ℚ) ^ e = (2 : ℚ) ^ (e - e1).toNat * (2 : ℚ) ^ e1 := by
    rw [← zpow_natCast, ← zpow_add₀ (by norm_num : (2 : ℚ) ≠ 0), hk]
    congr 1
    omega
  simp only [toRat, hpow]
  push_cast
  ring

/-- A natural number below `2^24` is a `float`. -/
theorem isVal_ofNat (n : Nat) (hn : n < 2 ^ 24) : (ofNat n).IsVal n := by
  unfold ofNat
  split_ifs with h0
  · subst h0
    refine ⟨rfl, ?_⟩
    simp [toRat]
  · have hL : bitlen 512 n ≤ 24 := bitlen_le 512 24 n hn
    have h1 : max ((0 : Int) + (bitlen 512 n : Int) - 24) (-149) ≤ 0 := by
      apply max_le <;> omega
    rw [round_of_le false n 0 h1 (by omega)]
    refine ⟨rfl, ?_⟩
    rw [toRat_fin_shift false n 0 _ h1]
    simp [toRat]

@[simp] theorem toRat_neg (x : float) : (-x).toRat = -x.toRat := by
  cases x with
  | nan => show (0 : ℚ) = -0; simp
  | inf s => show (0 : ℚ) = -0; simp
  | fin s m e =>
    show toRat (fin (!s) m e) = -toRat (fin s m e)
    cases s <;> simp [toRat]

theorem IsVal.of_eq {x y : float} {p q : ℚ} (hy : y.IsVal p) (hxy : x = y) (hq : q = p) :
    x.IsVal q := by
  subst hxy hq
  exact hy

end float

/-! ### Values of literals -/

@[simp] theorem float.toRat_fin (s : Bool) (m : Nat) (e : Int) :
    float.toRat (float.fin s m e) = (if s then -1 else 1) * (m : ℚ) * (2 : ℚ) ^ e := rfl

theorem float.isVal_fin (s : Bool) (m : Nat) (e : Int) :
    (float.fin s m e).IsVal (float.toRat (float.fin s m e)) := ⟨rfl, rfl⟩

theorem float.isVal_self {x : float} (h : x.isFinite = true) : x.IsVal x.toRat := ⟨h, rfl⟩

@[simp] theorem toRat_0 : (0 : float).toRat = 0 := float.isVal_zero.2

@[simp] theorem toRat_1 : (1 : float).toRat = 1 := by
  exact_mod_cast (float.isVal_ofNat 1 (by norm_num)).2

@[simp] theorem toRat_2 : (2 : float).toRat = 2 := by
  exact_mod_cast (float.isVal_ofNat 2 (by norm_num)).2

@[simp] theorem toRat_5 : (5 : float).toRat = 5 := by
  exact_mod_cast (float.isVal_ofNat 5 (by norm_num)).2

@[simp] theorem toRat_10 : (10 : float).toRat = 10 := by
  exact_mod_cast (float.isVal_ofNat 10 (by norm_num)).2

@[simp] theorem toRat_4097 : (4097 : float).toRat = 4097 := by
  exact_mod_cast (float.isVal_ofNat 4097 (by norm_num)).2

@[simp] theorem toRat_half : ((1 : float) / 2).toRat = 1 / 2 := by
  have h : (1 : float) / 2 = float.fin false 8388608 (-24) := by decide
  rw [h]
  norm_num

@[simp] theorem toRat_quarter : (1 / 4 : float).toRat = 1 / 4 := by
  rw [show (1 / 4 : float) = float.fin false 8388608 (-25) by decide]
  norm_num

/-! ### Generic component lemmas -/

section

variable {F : Type}

@[simp] theorem vec3.add_x [Add F] (a b : vec3 F) : (a + b).x = a.x + b.x := rfl
@[simp] theorem vec3.add_y [Add F] (a b : vec3 F) : (a + b).y = a.y + b.y := rfl
@[simp] theorem vec3.add_z [Add F] (a b : vec3 F) : (a + b).z = a.z + b.z := rfl
@[simp] theorem vec3.sub_x [Sub F] (a b : vec3 F) : (a - b).x = a.x - b.x := rfl
@[simp] theorem vec3.sub_y [Sub F] (a b : vec3 F) : (a - b).y = a.y - b.y := rfl
@[simp] theorem vec3.sub_z [Sub F] (a b : vec3 F) : (a - b).z = a.z - b.z := rfl
@[simp] theorem vec3.mul_x [Mul F] (a b : vec3 F) : (a * b).x = a.x * b.x := rfl
@[simp] theorem vec3.mul_y [Mul F] (a b : vec3 F) : (a * b).y = a.y * b.y := rfl
@[simp] theorem vec3.mul_z [Mul F] (a b : vec3 F) : (a * b).z = a.z * b.z := rfl
@[simp] theorem vec3.neg_x [Neg F] (a : vec3 F) : (-a).x = -a.x := rfl
@[simp] theorem vec3.neg_y [Neg F] (a : vec3 F) : (-a).y = -a.y := rfl
@[simp] theorem vec3.neg_z [Neg F] (a : vec3 F) : (-a).z = -a.z := rfl

end

theorem FLT_MAX_not_lt_zero : ¬ float.FLT_MAX < 0 := by decide

/-- The routine `intersectTriangle` as one expression: the three edge tests, then the normal and
the parameter of `intersectSegmentPlane`. -/
theorem intersectTriangle_eq (r : ray_t) (a b c gn : vec3 float) :
    r.intersectTriangle a b c gn =
      if r.tri_u b c < 0 then (float.FLT_MAX, gn)
      else if r.tri_v a c < 0 then (float.FLT_MAX, gn)
      else if r.tri_w a b < 0 then (float.FLT_MAX, gn)
      else (if r.segment_t a b c < 0 then float.FLT_MAX else r.segment_t a b c,
        normalize (tri_n a b c)) := rfl

/-- C5 as stated fails: the ray from `(1/4, 1/4, 2)` with direction `(0, 0, -1)` reaches the
triangle at `t = 2`, beyond the end `origin + dir` of the segment, and the hit is reported. -/
theorem triangle_hit_beyond_segment_end :
    ((⟨⟨1 / 4, 1 / 4, 2⟩, ⟨0, 0, -1⟩⟩ : ray_t).intersectTriangle
        ⟨0, 0, 0⟩ ⟨1, 0, 0⟩ ⟨0, 1, 0⟩ ⟨0, 0, 0⟩).1 = 2 ∧
    (2 : float).ne float.FLT_MAX = true ∧ (1 : float) < 2 := by
  refine ⟨by decide, by decide, by decide⟩

/-- C5, amended: on every input the `t` that `intersectTriangle` returns is not less than zero,
so a finite returned `t` has a value `≥ 0`; a returned `t` that is not the sentinel is the
quotient formed by `intersectSegmentPlane`, and no upper bound is applied to it. -/
theorem intersectTriangle_hit_nonneg (r : ray_t) (a b c gn : vec3 float) :
    ¬ (r.intersectTriangle a b c gn).1 < 0 ∧
    ((r.intersectTriangle a b c gn).1.isFinite = true → 0 ≤
        (r.intersectTriangle a b c gn).1.toRat) ∧
    ((r.intersectTriangle a b c gn).1 = float.FLT_MAX ∨
      (r.intersectTriangle a b c gn).1 = r.segment_t a b c) := by
  have h1 : ¬ (r.intersectTriangle a b c gn).1 < 0 ∧
      ((r.intersectTriangle a b c gn).1 = float.FLT_MAX ∨
        (r.intersectTriangle a b c gn).1 = r.segment_t a b c) := by
    rw [intersectTriangle_eq]
    split_ifs with h1 h2 h3 h4
    · exact ⟨FLT_MAX_not_lt_zero, Or.inl rfl⟩
    · exact ⟨FLT_MAX_not_lt_zero, Or.inl rfl⟩
    · exact ⟨FLT_MAX_not_lt_zero, Or.inl rfl⟩
    · exact ⟨FLT_MAX_not_lt_zero, Or.inl rfl⟩
    · exact ⟨h4, Or.inr rfl⟩
  refine ⟨h1.1, fun hfin => ?_, h1.2⟩
  exact not_lt.mp (fun h => h1.1 ((float.isVal_self hfin).lt_zero_iff.mpr h))

/-- Witness for C5, amended: the hit at `t = 2` beyond the end of the segment has a finite
parameter with a value `≥ 0`. -/
theorem intersectTriangle_hit_nonneg_witness :
    0 ≤ ((⟨⟨1 / 4, 1 / 4, 2⟩, ⟨0, 0, -1⟩⟩ : ray_t).intersectTriangle
      ⟨0, 0, 0⟩ ⟨1, 0, 0⟩ ⟨0, 1, 0⟩ ⟨0, 0, 0⟩).1.toRat :=
  (intersectTriangle_hit_nonneg ⟨⟨1 / 4, 1 / 4, 2⟩, ⟨0, 0, -1⟩⟩
    ⟨0, 0, 0⟩ ⟨1, 0, 0⟩ ⟨0, 1, 0⟩ ⟨0, 0, 0⟩).2.1 (by decide)

/-! ### The edge tests of `intersectTriangle` -/

namespace float

theorem mul_def (x y : float) : x * y = mul x y := rfl
theorem add_def (x y : float) : x + y = add x y := rfl
theorem sub_def (x y : float) : x - y = add x (neg y) := rfl
theorem neg_def (x : float) : -x = neg x := rfl
theorem zero_def : (0 : float) = fin false 0 (-149) := rfl

/-- Float multiplication is commutative. -/
theorem mul_comm (x y : float) : x * y = y * x := by
  cases x <;> cases y <;>
    simp only [mul_def, mul, Nat.mul_comm, Int.add_comm, Bool.xor_comm]

theorem neg_neg (x : float) : neg (neg x) = x := by
  cases x <;> simp [neg]

/-- Rounding commutes with the sign. -/
theorem round_neg (s : Bool) (m : Nat) (e : Int) (st : Bool) :
    round (!s) m e st = neg (round s m e st) := by
  unfold round
  simp only
  split_ifs <;> rfl

/-- The difference of a float and itself is `+0` when the float is finite and NaN otherwise. -/
theorem sub_self (x : float) : x - x = if x.isFinite then 0 else nan := by
  cases x with
  | nan => rfl
  | inf s => cases s <;> rfl
  | fin s m e =>
    simp only [sub_def, neg, add, isFinite, if_true, zero_def]
    cases s <;> simp

theorem round_neg_int (c : Int) (hc : c ≠ 0) (e0 : Int) :
    round (decide (-c < 0)) (-c).natAbs e0 false =
      neg (round (decide (c < 0)) c.natAbs e0 false) := by
  have h : decide (-c < 0) = !decide (c < 0) := by
    rcases lt_or_gt_of_ne hc with h | h
    · have h2 : ¬ -c < 0 := by omega
      simp [h, h2]
    · have h2 : ¬ c < 0 := by omega
      have h3 : -c < 0 := by omega
      simp [h2, h3]
  rw [Int.natAbs_neg, h, round_neg]

/-- The sum of two finite floats in terms of the sum `c` of the scaled mantissas. -/
theorem add_fin (s : Bool) (m : Nat) (e : Int) (t : Bool) (n : Nat) (f : Int) :
    add (fin s m e) (fin t n f) =
      if (if s then -1 else 1) * ((m * 2 ^ (e - min e f).toNat : Nat) : Int) +
          (if t then -1 else 1) * ((n * 2 ^ (f - min e f).toNat : Nat) : Int) = 0
      then fin (s && t) 0 (-149)
      else round (decide ((if s then -1 else 1) * ((m * 2 ^ (e - min e f).toNat : Nat) : Int) +
          (if t then -1 else 1) * ((n * 2 ^ (f - min e f).toNat : Nat) : Int) < 0))
        ((if s then -1 else 1) * ((m * 2 ^ (e - min e f).toNat : Nat) : Int) +
          (if t then -1 else 1) * ((n * 2 ^ (f - min e f).toNat : Nat) : Int)).natAbs
        (min e f) false := rfl

/-- The two orders of a subtraction give opposite results, except that both are `+0` when the
operands are equal and finite. -/
theorem sub_antisymm (x y : float) : x - y = -(y - x) ∨ (x - y = 0 ∧ y - x = 0) := by
  cases x with
  | nan => cases y <;> exact Or.inl rfl
  | inf s =>
    cases y with
    | nan => exact Or.inl rfl
    | inf t => cases s <;> cases t <;> exact Or.inl rfl
    | fin t n f => cases s <;> exact Or.inl rfl
  | fin s m e =>
    cases y with
    | nan => exact Or.inl rfl
    | inf t => cases t <;> exact Or.inl rfl
    | fin t n f =>
      show add (fin s m e) (fin (!t) n f) = neg (add (fin t n f) (fin (!s) m e)) ∨
        (add (fin s m e) (fin (!t) n f) = fin false 0 (-149) ∧
          add (fin t n f) (fin (!s) m e) = fin false 0 (-149))
      rw [add_fin, add_fin, min_comm f e]
      generalize ((m * 2 ^ (e - min e f).toNat : Nat) : Int) = A
      generalize ((n * 2 ^ (f - min e f).toNat : Nat) : Int) = B
      have key : ∀ c c2 : Int, c2 = -c → ∀ u v : Bool,
          (c = 0 → fin u 0 (-149) = neg (fin v 0 (-149)) ∨
            (fin u 0 (-149) = fin false 0 (-149) ∧ fin v 0 (-149) = fin false 0 (-149))) →
          ((if c = 0 then fin u 0 (-149) else round (decide (c < 0)) c.natAbs (min e f) false) =
            neg (if c2 = 0 then fin v 0 (-149)
              else round (decide (c2 < 0)) c2.natAbs (min e f) false) ∨
          ((if c = 0 then fin u 0 (-149) else round (decide (c < 0)) c.natAbs (min e f) false)
              = fin false 0 (-149) ∧
            (if c2 = 0 then fin v 0 (-149)
              else round (decide (c2 < 0)) c2.natAbs (min e f) false) = fin false 0 (-149))) := by
        intro c c2 hc2 u v h0
        subst hc2
        by_cases hc : c = 0
        · have hc' : -c = 0 := by omega
          rw [if_pos hc, if_pos hc']
          exact h0 hc
        · have hc' : ¬ -c = 0 := by omega
          rw [if_neg hc, if_neg hc', round_neg_int c hc, neg_neg]
          exact Or.inl rfl
      cases s <;> cases t
      · exact key _ _ (by simp) _ _ (fun _ => Or.inr ⟨rfl, rfl⟩)
      · exact key _ _ (by simp) _ _ (fun _ => Or.inl rfl)
      · exact key _ _ (by simp) _ _ (fun _ => Or.inl rfl)
      · exact key _ _ (by simp) _ _ (fun _ => Or.inr ⟨rfl, rfl⟩)

theorem EqZ.trans {x y z : float} (h1 : EqZ x y) (h2 : EqZ y z) : EqZ x z := by
  rcases h1 with rfl | ⟨s, t, e, rfl, rfl⟩
  · exact h2
  · rcases h2 with rfl | ⟨s2, t2, e2, h, rfl⟩
    · exact Or.inr ⟨s, t, e, rfl, rfl⟩
    · injection h with _ _ he
      subst he
      exact Or.inr ⟨s, t2, e, rfl, rfl⟩

/-- Zeros that differ in sign give products that differ at most in the sign of a zero. -/
theorem EqZ.mul_right {x y : float} (h : EqZ x y) (w : float) : EqZ (x * w) (y * w) := by
  rcases h with rfl | ⟨s, t, e, rfl, rfl⟩
  · exact Or.inl rfl
  · cases w with
    | nan => exact Or.inl rfl
    | inf u => exact Or.inl rfl
    | fin u n f =>
      refine Or.inr ⟨xor s u, xor t u, -149, ?_, ?_⟩ <;> simp [mul_def, mul]

/-- Zeros that differ in sign give sums that differ at most in the sign of a zero. -/
theorem EqZ.add {x x2 y y2 : float} (hx : EqZ x x2) (hy : EqZ y y2) :
    EqZ (x + y) (x2 + y2) := by
  rcases hx with rfl | ⟨s, t, e, rfl, rfl⟩ <;> rcases hy with rfl | ⟨u, v, f, rfl, rfl⟩
  · exact Or.inl rfl
  · cases x with
    | nan => exact Or.inl rfl
    | inf s => exact Or.inl rfl
    | fin s m e =>
      simp only [add_def, add_fin, Nat.zero_mul, Nat.cast_zero, mul_zero, add_zero]
      split_ifs <;> first | exact Or.inl rfl | exact Or.inr ⟨_, _, _, rfl, rfl⟩
  · cases y with
    | nan => exact Or.inl rfl
    | inf s => exact Or.inl rfl
    | fin u n f =>
      simp only [add_def, add_fin, Nat.zero_mul, Nat.cast_zero, mul_zero, zero_add]
      split_ifs <;> first | exact Or.inl rfl | exact Or.inr ⟨_, _, _, rfl, rfl⟩
  · simp only [add_def, add_fin, Nat.zero_mul, Nat.cast_zero, mul_zero, add_zero, if_true]
    exact Or.inr ⟨_, _, _, rfl, rfl⟩

theorem neg_mul (x w : float) : -x * w = -(x * w) := by
  cases x with
  | nan => cases w <;> rfl
  | inf s =>
    cases w with
    | nan => rfl
    | inf t => cases s <;> cases t <;> rfl
    | fin t n f =>
      simp only [neg_def, mul_def, neg, mul]
      split_ifs
      · rfl
      · cases s <;> cases t <;> rfl
  | fin s m e =>
    cases w with
    | nan => rfl
    | inf t =>
      simp only [neg_def, mul_def, neg, mul]
      split_ifs
      · rfl
      · cases s <;> cases t <;> rfl
    | fin t n f =>
      show mul (fin (!s) m e) (fin t n f) = neg (mul (fin s m e) (fin t n f))
      simp only [mul]
      have hx : xor (!s) t = !(xor s t) := by cases s <;> cases t <;> rfl
      rw [hx]
      split_ifs
      · rfl
      · exact round_neg _ _ _ _

/-- The sum of two negated floats is the negated sum, up to the sign of a zero. -/
theorem neg_add_neg (x y : float) : EqZ (-x + -y) (-(x + y)) := by
  cases x with
  | nan => cases y <;> exact Or.inl rfl
  | inf s =>
    cases y with
    | nan => exact Or.inl rfl
    | inf t => cases s <;> cases t <;> exact Or.inl rfl
    | fin t n f => exact Or.inl rfl
  | fin s m e =>
    cases y with
    | nan => exact Or.inl rfl
    | inf t => exact Or.inl rfl
    | fin t n f =>
      show EqZ (add (fin (!s) m e) (fin (!t) n f)) (neg (add (fin s m e) (fin t n f)))
      rw [add_fin, add_fin]
      generalize ((m * 2 ^ (e - min e f).toNat : Nat) : Int) = A
      generalize ((n * 2 ^ (f - min e f).toNat : Nat) : Int) = B
      have hc : (if (!s) = true then -1 else 1) * A + (if (!t) = true then -1 else 1) * B =
          -((if s = true then -1 else 1) * A + (if t = true then -1 else 1) * B) := by
        cases s <;> cases t <;> simp <;> ring
      rw [hc]
      generalize (if s = true then -1 else 1) * A + (if t = true then -1 else 1) * B = c
      by_cases h0 : c = 0
      · have h0' : -c = 0 := by omega
        rw [if_pos h0, if_pos h0']
        exact Or.inr ⟨_, _, _, rfl, rfl⟩
      · have h0' : ¬ -c = 0 := by omega
        rw [if_neg h0, if_neg h0', round_neg_int c h0]
        exact Or.inl rfl

/-- Floats that differ at most in the sign of a zero compare equal, unless they are NaN. -/
theorem EqZ.eq {x y : float} (h : EqZ x y) : x = nan ∨ x.eq y = true := by
  rcases h with rfl | ⟨s, t, e, rfl, rfl⟩
  · cases x with
    | nan => exact Or.inl rfl
    | inf s => exact Or.inr (by simp [float.eq])
    | fin s m e => exact Or.inr (by simp [float.eq, lt])
  · exact Or.inr (by simp [float.eq, lt])

theorem EqZ.of_sub_antisymm (x y : float) : EqZ (x - y) (-(y - x)) := by
  rcases sub_antisymm x y with h | ⟨h1, h2⟩
  · exact Or.inl h
  · rw [h1, h2]
    exact Or.inr ⟨false, true, -149, rfl, rfl⟩

end float

/-! ### `cross` and `ScalarTriple` -/

/-- A component of `v.cross(u)` is the negated component of `u.cross(v)`, up to the sign of a
zero. -/
theorem cross_swap (u v : vec3 float) :
    float.EqZ (cross v u).x (-(cross u v).x) ∧ float.EqZ (cross v u).y (-(cross u v).y) ∧
      float.EqZ (cross v u).z (-(cross u v).z) := by
  refine ⟨?_, ?_, ?_⟩
  · show float.EqZ (v.y * u.z - v.z * u.y) (-(u.y * v.z - u.z * v.y))
    rw [float.mul_comm v.y u.z, float.mul_comm v.z u.y]
    exact float.EqZ.of_sub_antisymm _ _
  · show float.EqZ (v.z * u.x - v.x * u.z) (-(u.z * v.x - u.x * v.z))
    rw [float.mul_comm v.z u.x, float.mul_comm v.x u.z]
    exact float.EqZ.of_sub_antisymm _ _
  · show float.EqZ (v.x * u.y - v.y * u.x) (-(u.x * v.y - u.y * v.x))
    rw [float.mul_comm v.x u.y, float.mul_comm v.y u.x]
    exact float.EqZ.of_sub_antisymm _ _

/-- Swapping the first two arguments of `ScalarTriple` negates the result, up to the sign of a
zero. -/
theorem ScalarTriple_swap (u v w : vec3 float) :
    float.EqZ (ScalarTriple v u w) (-(ScalarTriple u v w)) := by
  obtain ⟨hx, hy, hz⟩ := cross_swap u v
  have px := hx.mul_right w.x
  have py := hy.mul_right w.y
  have pz := hz.mul_right w.z
  rw [float.neg_mul] at px py pz
  exact ((px.add py).trans (float.neg_add_neg _ _)).add pz |>.trans (float.neg_add_neg _ _)

/-- A float that is a zero or NaN stays so when multiplied. -/
theorem zero_or_nan_mul {x : float} (h : x = float.nan ∨ ∃ s, x = float.fin s 0 (-149))
    (w : float) : x * w = float.nan ∨ ∃ s, x * w = float.fin s 0 (-149) := by
  rcases h with rfl | ⟨s, rfl⟩
  · cases w <;> exact Or.inl rfl
  · cases w with
    | nan => exact Or.inl rfl
    | inf t => exact Or.inl rfl
    | fin t n f => exact Or.inr ⟨xor s t, by simp [float.mul_def, float.mul]⟩

/-- The sum of two floats that are zeros or NaN is a zero or NaN. -/
theorem zero_or_nan_add {x y : float} (hx : x = float.nan ∨ ∃ s, x = float.fin s 0 (-149))
    (hy : y = float.nan ∨ ∃ s, y = float.fin s 0 (-149)) :
    x + y = float.nan ∨ ∃ s, x + y = float.fin s 0 (-149) := by
  rcases hx with rfl | ⟨s, rfl⟩
  · cases y <;> exact Or.inl rfl
  · rcases hy with rfl | ⟨t, rfl⟩
    · exact Or.inl rfl
    · exact Or.inr ⟨s && t, by simp [float.add_def, float.add_fin]⟩

theorem zero_or_nan_sub_self (x : float) :
    x - x = float.nan ∨ ∃ s, x - x = float.fin s 0 (-149) := by
  rw [float.sub_self]
  split_ifs
  · exact Or.inr ⟨false, rfl⟩
  · exact Or.inl rfl

theorem zero_or_nan_eq {x : float} (h : x = float.nan ∨ ∃ s, x = float.fin s 0 (-149)) :
    x = float.nan ∨ x.eq 0 = true := by
  rcases h with rfl | ⟨s, rfl⟩
  · exact Or.inl rfl
  · exact Or.inr (by cases s <;> decide)

/-- C13 as stated fails: for `a = (2^64, 2^64, 1)` the products `a.x * a.y` overflow, and
`a.cross(a)` is `(0, 0, NaN)`, not `(0,0,0)`. -/
theorem cross_self_overflow :
    (⟨18446744073709551616, 18446744073709551616, 1⟩ : vec3 float).cross
        ⟨18446744073709551616, 18446744073709551616, 1⟩ = ⟨0, 0, float.nan⟩ ∧
    (⟨0, 0, float.nan⟩ : vec3 float) ≠ ⟨0, 0, 0⟩ := by
  refine ⟨by decide, by decide⟩

/-- C13, amended: the member `vec3::cross` and the free function `cross` return the same vector;
each component of `a.cross(b)` is the negated component of `b.cross(a)`, except that both are
`+0` when the two products of the component are equal and finite, so that the components compare
equal under `==` unless they are NaN; and each component of `a.cross(a)` is `+0` when its
product is finite and NaN when the product overflows. -/
theorem cross_anticomm (a b : vec3 float) :
    cross a b = a.cross b ∧
    (((a.cross b).x = -(b.cross a).x ∨ ((a.cross b).x = 0 ∧ (b.cross a).x = 0)) ∧
      ((a.cross b).y = -(b.cross a).y ∨ ((a.cross b).y = 0 ∧ (b.cross a).y = 0)) ∧
      ((a.cross b).z = -(b.cross a).z ∨ ((a.cross b).z = 0 ∧ (b.cross a).z = 0))) ∧
    (((a.cross b).x = float.nan ∨ (a.cross b).x.eq (-(b.cross a)).x = true) ∧
      ((a.cross b).y = float.nan ∨ (a.cross b).y.eq (-(b.cross a)).y = true) ∧
      ((a.cross b).z = float.nan ∨ (a.cross b).z.eq (-(b.cross a)).z = true)) ∧
    ((a.cross a).x = (if (a.y * a.z).isFinite then 0 else float.nan) ∧
      (a.cross a).y = (if (a.z * a.x).isFinite then 0 else float.nan) ∧
      (a.cross a).z = (if (a.x * a.y).isFinite then 0 else float.nan)) := by
  have hx : (a.cross b).x = -(b.cross a).x ∨ ((a.cross b).x = 0 ∧ (b.cross a).x = 0) := by
    show a.y * b.z - a.z * b.y = -(b.y * a.z - b.z * a.y) ∨
      (a.y * b.z - a.z * b.y = 0 ∧ b.y * a.z - b.z * a.y = 0)
    rw [float.mul_comm b.y a.z, float.mul_comm b.z a.y]
    exact float.sub_antisymm _ _
  have hy : (a.cross b).y = -(b.cross a).y ∨ ((a.cross b).y = 0 ∧ (b.cross a).y = 0) := by
    show a.z * b.x - a.x * b.z = -(b.z * a.x - b.x * a.z) ∨
      (a.z * b.x - a.x * b.z = 0 ∧ b.z * a.x - b.x * a.z = 0)
    rw [float.mul_comm b.z a.x, float.mul_comm b.x a.z]
    exact float.sub_antisymm _ _
  have hz : (a.cross b).z = -(b.cross a).z ∨ ((a.cross b).z = 0 ∧ (b.cross a).z = 0) := by
    show a.x * b.y - a.y * b.x = -(b.x * a.y - b.y * a.x) ∨
      (a.x * b.y - a.y * b.x = 0 ∧ b.x * a.y - b.y * a.x = 0)
    rw [float.mul_comm b.x a.y, float.mul_comm b.y a.x]
    exact float.sub_antisymm _ _
  have heq : ∀ p q : float, (p = -q ∨ (p = 0 ∧ q = 0)) →
      (p = float.nan ∨ p.eq (-q) = true) := by
    intro p q h
    rcases h with h | ⟨h1, h2⟩
    · exact (float.EqZ.eq (Or.inl h))
    · rw [h1, h2]
      exact Or.inr (by decide)
  refine ⟨rfl, ⟨hx, hy, hz⟩, ⟨heq _ _ hx, heq _ _ hy, heq _ _ hz⟩, ?_, ?_, ?_⟩
  · show a.y * a.z - a.z * a.y = _
    rw [float.mul_comm a.z a.y, float.sub_self]
  · show a.z * a.x - a.x * a.z = _
    rw [float.mul_comm a.x a.z, float.sub_self]
  · show a.x * a.y - a.y * a.x = _
    rw [float.mul_comm a.y a.x, float.sub_self]

/-- The scalar triple product is alternating, in exact arithmetic. -/
theorem ScalarTriple_exact (u v w : vec3 ℚ) :
    ScalarTriple u w v = -ScalarTriple u v w ∧ ScalarTriple w v u = -ScalarTriple u v w ∧
      ScalarTriple u v v = 0 ∧ ScalarTriple u v u = 0 := by
  simp only [ScalarTriple, cross, vec3.dot]
  refine ⟨?_, ?_, ?_, ?_⟩ <;> ring

/-- C14 as stated fails: for `u = (.1f, .2f, .3f)`, `v = (.4f, .5f, .7f)`, `w = (.9f, .8f, .6f)`
the results of `ScalarTriple(u,w,v)` and `ScalarTriple(w,v,u)` are not the negated result of
`ScalarTriple(u,v,w)`, and `ScalarTriple(u,v,v)` is not zero. -/
theorem ScalarTriple_rounding_breaks_swap :
    (ScalarTriple (⟨1 / 10, 2 / 10, 3 / 10⟩ : vec3 float) (⟨9 / 10, 8 / 10, 6 / 10⟩ : vec3 float)
        (⟨4 / 10, 5 / 10, 7 / 10⟩ : vec3 float)).eq
        (-(ScalarTriple (⟨1 / 10, 2 / 10, 3 / 10⟩ : vec3 float)
            (⟨4 / 10, 5 / 10, 7 / 10⟩ : vec3 float) (⟨9 / 10, 8 / 10, 6 / 10⟩ : vec3 float))) =
            false ∧
    (ScalarTriple (⟨9 / 10, 8 / 10, 6 / 10⟩ : vec3 float) (⟨4 / 10, 5 / 10, 7 / 10⟩ : vec3 float)
        (⟨1 / 10, 2 / 10, 3 / 10⟩ : vec3 float)).eq
        (-(ScalarTriple (⟨1 / 10, 2 / 10, 3 / 10⟩ : vec3 float)
            (⟨4 / 10, 5 / 10, 7 / 10⟩ : vec3 float) (⟨9 / 10, 8 / 10, 6 / 10⟩ : vec3 float))) =
            false ∧
    (ScalarTriple (⟨1 / 10, 2 / 10, 3 / 10⟩ : vec3 float) (⟨4 / 10, 5 / 10, 7 / 10⟩ : vec3 float)
        (⟨4 / 10, 5 / 10, 7 / 10⟩ : vec3 float)).eq 0 = false := by
  refine ⟨by decide, by decide, by decide⟩

/-- C14, amended: swapping the first two arguments of `ScalarTriple` negates the result on
every input, up to the sign of a zero, so that the two results compare equal under `==` unless
they are NaN, and `ScalarTriple(u,u,w)` is a zero or NaN; the other two swaps negate the result,
and `ScalarTriple(u,v,v)` and `ScalarTriple(u,v,u)` are zero, when the results involved are
computed without rounding. -/
theorem ScalarTriple_alternating (u v w : vec3 float) :
    (ScalarTriple v u w = float.nan ∨
      (ScalarTriple v u w).eq (-(ScalarTriple u v w)) = true) ∧
    (ScalarTriple u u w = float.nan ∨ (ScalarTriple u u w).eq 0 = true) ∧
    ((ScalarTriple u v w).IsVal (ScalarTriple u.toRat v.toRat w.toRat) →
      (ScalarTriple u w v).IsVal (ScalarTriple u.toRat w.toRat v.toRat) →
      (ScalarTriple u w v).eq (-(ScalarTriple u v w)) = true) ∧
    ((ScalarTriple u v w).IsVal (ScalarTriple u.toRat v.toRat w.toRat) →
      (ScalarTriple w v u).IsVal (ScalarTriple w.toRat v.toRat u.toRat) →
      (ScalarTriple w v u).eq (-(ScalarTriple u v w)) = true) ∧
    ((ScalarTriple u v v).IsVal (ScalarTriple u.toRat v.toRat v.toRat) →
      (ScalarTriple u v v).eq 0 = true) ∧
    ((ScalarTriple u v u).IsVal (ScalarTriple u.toRat v.toRat u.toRat) →
      (ScalarTriple u v u).eq 0 = true) := by
  obtain ⟨e1, e2, e3, e4⟩ := ScalarTriple_exact u.toRat v.toRat w.toRat
  refine ⟨(ScalarTriple_swap u v w).eq, ?_, ?_, ?_, ?_, ?_⟩
  · apply zero_or_nan_eq
    have cx : (cross u u).x = float.nan ∨ ∃ s, (cross u u).x = float.fin s 0 (-149) := by
      show u.y * u.z - u.z * u.y = _ ∨ ∃ s, u.y * u.z - u.z * u.y = _
      rw [float.mul_comm u.z u.y]
      exact zero_or_nan_sub_self _
    have cy : (cross u u).y = float.nan ∨ ∃ s, (cross u u).y = float.fin s 0 (-149) := by
      show u.z * u.x - u.x * u.z = _ ∨ ∃ s, u.z * u.x - u.x * u.z = _
      rw [float.mul_comm u.x u.z]
      exact zero_or_nan_sub_self _
    have cz : (cross u u).z = float.nan ∨ ∃ s, (cross u u).z = float.fin s 0 (-149) := by
      show u.x * u.y - u.y * u.x = _ ∨ ∃ s, u.x * u.y - u.y * u.x = _
      rw [float.mul_comm u.y u.x]
      exact zero_or_nan_sub_self _
    exact zero_or_nan_add (zero_or_nan_add (zero_or_nan_mul cx w.x) (zero_or_nan_mul cy w.y))
      (zero_or_nan_mul cz w.z)
  · intro h1 h2
    exact (h2.eq_iff h1.neg).mpr e1
  · intro h1 h2
    exact (h2.eq_iff h1.neg).mpr e2
  · intro h1
    exact (h1.eq_iff float.isVal_zero).mpr e3
  · intro h1
    exact (h1.eq_iff float.isVal_zero).mpr e4

/-- Witness for C14, amended: on the unit vectors `ScalarTriple` is computed without rounding,
and swapping the last two arguments negates the result `1`. -/
theorem ScalarTriple_alternating_witness :
    (ScalarTriple (⟨1, 0, 0⟩ : vec3 float) (⟨0, 0, 1⟩ : vec3 float) (⟨0, 1, 0⟩ : vec3 float)).eq
      (-(ScalarTriple (⟨1, 0, 0⟩ : vec3 float) (⟨0, 1, 0⟩ : vec3 float)
          (⟨0, 0, 1⟩ : vec3 float))) = true :=
  (ScalarTriple_alternating (⟨1, 0, 0⟩ : vec3 float) (⟨0, 1, 0⟩ : vec3 float)
      (⟨0, 0, 1⟩ : vec3 float)).2.2.1
    ((float.isVal_fin false 8388608 (-23)).of_eq (by decide)
        (by norm_num [ScalarTriple, cross, vec3.cross, vec3.dot, vec3.toRat]))
    ((float.isVal_fin true 8388608 (-23)).of_eq (by decide)
        (by norm_num [ScalarTriple, cross, vec3.cross, vec3.dot, vec3.toRat]))

/-! ### `normalize` -/

theorem bitlen_spec (fuel : Nat) : ∀ n : Nat, 0 < n → n < 2 ^ fuel →
    2 ^ (bitlen fuel n - 1) ≤ n ∧ n < 2 ^ bitlen fuel n ∧ 0 < bitlen fuel n := by
  induction fuel with
  | zero => intro n h0 h; simp at h; omega
  | succ fuel ih =>
    intro n h0 h
    unfold bitlen
    rw [if_neg (by omega)]
    by_cases h1 : n / 2 = 0
    · have hn : n = 1 := by omega
      subst hn
      cases fuel <;> simp [bitlen]
    · have hlt : n / 2 < 2 ^ fuel := by
        rw [Nat.div_lt_iff_lt_mul (by norm_num)]
        rw [pow_succ] at h
        exact h
      obtain ⟨a, b, c⟩ := ih (n / 2) (by omega) hlt
      refine ⟨?_, ?_, by omega⟩
      · have e : bitlen fuel (n / 2) + 1 - 1 = (bitlen fuel (n / 2) - 1) + 1 := by omega
        rw [e, pow_succ]
        omega
      · rw [pow_succ]
        omega

theorem bitlen_spec_le (fuel b n : Nat) (h0 : 0 < n) (h : n < 2 ^ b) (hb : b ≤ fuel) :
    2 ^ (bitlen fuel n - 1) ≤ n ∧ n < 2 ^ bitlen fuel n ∧ 0 < bitlen fuel n :=
  bitlen_spec fuel n h0 (Nat.lt_of_lt_of_le h (Nat.pow_le_pow_right Nat.two_pos hb))

/-- The number of binary digits of `k * 2^j`. -/
theorem bitlen_shift (fuel b k j : Nat) (hk : 0 < k) (h : k < 2 ^ b) (hb : b + j ≤ fuel) :
    bitlen fuel (k * 2 ^ j) = bitlen fuel k + j := by
  have hkj : k * 2 ^ j < 2 ^ (b + j) := by
    rw [pow_add]
    exact Nat.mul_lt_mul_of_pos_right h (by positivity)
  obtain ⟨a1, b1, c1⟩ := bitlen_spec_le fuel b k hk h (by omega)
  obtain ⟨a2, b2, c2⟩ := bitlen_spec_le fuel (b + j) (k * 2 ^ j) (by positivity) hkj hb
  have h1 : 2 ^ (bitlen fuel (k * 2 ^ j) - 1) < 2 ^ (bitlen fuel k + j) := by
    calc 2 ^ (bitlen fuel (k * 2 ^ j) - 1) ≤ k * 2 ^ j := a2
      _ < 2 ^ bitlen fuel k * 2 ^ j := Nat.mul_lt_mul_of_pos_right b1 (by positivity)
      _ = 2 ^ (bitlen fuel k + j) := (pow_add 2 _ _).symm
  have h2 : 2 ^ (bitlen fuel k - 1 + j) < 2 ^ bitlen fuel (k * 2 ^ j) := by
    calc 2 ^ (bitlen fuel k - 1 + j) = 2 ^ (bitlen fuel k - 1) * 2 ^ j := pow_add 2 _ _
      _ ≤ k * 2 ^ j := Nat.mul_le_mul_right _ a1
      _ < 2 ^ bitlen fuel (k * 2 ^ j) := b2
  have h3 := (Nat.pow_lt_pow_iff_right (by norm_num : 1 < 2)).mp h1
  have h4 := (Nat.pow_lt_pow_iff_right (by norm_num : 1 < 2)).mp h2
  omega

namespace float

/-- Rounding a whole number `0 < k < 2^24`, given as `(k * 2^j) * 2^(-j)`, gives the float with
the mantissa `k * 2^d` and the exponent `-d`, where `d = 24 - bitlen k`. -/
theorem round_nat (s : Bool) (k j : Nat) (hk : 0 < k) (hk2 : k < 2 ^ 24) (hj : j ≤ 400) :
    round s (k * 2 ^ j) (-(j : Int)) false =
      fin s (k * 2 ^ (24 - bitlen 512 k)) (-((24 - bitlen 512 k : Nat) : Int)) := by
  have hL : bitlen 512 k ≤ 24 := bitlen_le 512 24 k hk2
  obtain ⟨-, hlt, hL0⟩ := bitlen_spec_le 512 24 k hk hk2 (by norm_num)
  have hbl := bitlen_shift 512 24 k j hk hk2 (by omega)
  obtain ⟨d, hd⟩ : ∃ d, d = 24 - bitlen 512 k := ⟨_, rfl⟩
  rw [← hd]
  have hLd : bitlen 512 k + d = 24 := by omega
  have hkd : k * 2 ^ d < 2 ^ 24 := by
    calc k * 2 ^ d < 2 ^ bitlen 512 k * 2 ^ d := Nat.mul_lt_mul_of_pos_right hlt (by positivity)
      _ = 2 ^ 24 := by rw [← pow_add, hLd]
  have he1 : max (-(j : Int) + ((bitlen 512 (k * 2 ^ j) : Nat) : Int) - 24) (-149) =
      -(d : Int) := by
    rw [hbl]
    push_cast
    rw [max_eq_left (by omega)]
    omega
  unfold round
  simp only [he1]
  by_cases hjd : j ≤ d
  · have h1 : -(d : Int) ≤ -(j : Int) := by omega
    have h2 : ¬ -(d : Int) > 104 := by omega
    have h3 : (-(j : Int) - -(d : Int)).toNat = d - j := by omega
    rw [if_pos h1, if_neg h2, h3, Nat.mul_assoc, ← pow_add]
    congr 3
    omega
  · obtain ⟨sh, rfl⟩ : ∃ sh, j = d + (sh + 1) := ⟨j - d - 1, by omega⟩
    have h1 : ¬ -(d : Int) ≤ -((d + (sh + 1) : Nat) : Int) := by omega
    have h3 : (-(d : Int) - -((d + (sh + 1) : Nat) : Int)).toNat = sh + 1 := by omega
    have hq : k * 2 ^ (d + (sh + 1)) / 2 ^ (sh + 1) = k * 2 ^ d := by
      rw [pow_add, ← Nat.mul_assoc]
      exact Nat.mul_div_cancel _ (by positivity)
    have hr : k * 2 ^ (d + (sh + 1)) % 2 ^ (sh + 1) = 0 := by
      rw [pow_add, ← Nat.mul_assoc]
      exact Nat.mul_mod_left _ _
    have hhalf : (0 : Nat) < 2 ^ (sh + 1 - 1) := by positivity
    have h4 : ¬ (0 : Nat) > 2 ^ (sh + 1 - 1) := by omega
    have h5 : ¬ (0 : Nat) = 2 ^ (sh + 1 - 1) := by omega
    have h6 : ¬ k * 2 ^ d = 2 ^ 24 := by omega
    have h7 : ¬ -(d : Int) > 104 := by omega
    rw [if_neg h1, h3, hq, hr]
    simp only [h4, h5, decide_False, Bool.false_and, Bool.or_false, Bool.false_eq_true,
      if_false, h6, h7]


/-- The float of a whole number `0 < n < 2^24`: mantissa `n * 2^d`, exponent `-d`. -/
theorem ofNat_repr (n : Nat) (h0 : 0 < n) (hn : n < 2 ^ 24) :
    ofNat n = fin false (n * 2 ^ (24 - bitlen 512 n)) (-((24 - bitlen 512 n : Nat) : Int)) := by
  have h := round_nat false n 0 h0 hn (by norm_num)
  simp only [pow_zero, mul_one, Nat.cast_zero, neg_zero] at h
  unfold ofNat
  rw [if_neg (by omega), h]

/-- The sum of two floats with mantissas `a * 2^d1`, `b * 2^d2` and exponents `-d1`, `-d2`, in
terms of the whole number `z = ±a ± b`. -/
theorem add_repr (s t : Bool) (a b d1 d2 : Nat) :
    add (fin s (a * 2 ^ d1) (-(d1 : Int))) (fin t (b * 2 ^ d2) (-(d2 : Int))) =
      if (if s then -1 else 1) * (a : Int) + (if t then -1 else 1) * (b : Int) = 0
      then fin (s && t) 0 (-149)
      else round (decide ((if s then -1 else 1) * (a : Int) +
          (if t then -1 else 1) * (b : Int) < 0))
        (((if s then -1 else 1) * (a : Int) + (if t then -1 else 1) * (b : Int)).natAbs *
          2 ^ max d1 d2) (-((max d1 d2 : Nat) : Int)) false := by
  rw [add_fin]
  have hmin : min (-(d1 : Int)) (-(d2 : Int)) = -((max d1 d2 : Nat) : Int) := by
    rcases le_total d1 d2 with h | h
    · rw [max_eq_right h, min_eq_right (by omega)]
    · rw [max_eq_left h, min_eq_left (by omega)]
  rw [hmin]
  have e1 : (-(d1 : Int) - -((max d1 d2 : Nat) : Int)).toNat = max d1 d2 - d1 := by
    have := le_max_left d1 d2
    omega
  have e2 : (-(d2 : Int) - -((max d1 d2 : Nat) : Int)).toNat = max d1 d2 - d2 := by
    have := le_max_right d1 d2
    omega
  have p1 : a * 2 ^ d1 * 2 ^ (max d1 d2 - d1) = a * 2 ^ max d1 d2 := by
    rw [Nat.mul_assoc, ← pow_add]
    congr 2
    have := le_max_left d1 d2
    omega
  have p2 : b * 2 ^ d2 * 2 ^ (max d1 d2 - d2) = b * 2 ^ max d1 d2 := by
    rw [Nat.mul_assoc, ← pow_add]
    congr 2
    have := le_max_right d1 d2
    omega
  rw [e1, e2, p1, p2]
  generalize max d1 d2 = D
  have hfac : (if s = true then -1 else 1) * ((a * 2 ^ D : Nat) : Int) +
      (if t = true then -1 else 1) * ((b * 2 ^ D : Nat) : Int) =
      ((if s = true then -1 else 1) * (a : Int) + (if t = true then -1 else 1) * (b : Int)) *
        ((2 ^ D : Nat) : Int) := by
    push_cast
    ring
  rw [hfac]
  generalize (if s = true then -1 else 1) * (a : Int) + (if t = true then -1 else 1) * (b : Int) = z
  have hpos : (0 : Int) < ((2 ^ D : Nat) : Int) := by positivity
  have h0 : z * ((2 ^ D : Nat) : Int) = 0 ↔ z = 0 := by
    constructor
    · intro h
      rcases mul_eq_zero.mp h with h | h
      · exact h
      · omega
    · rintro rfl
      simp
  have hneg : z * ((2 ^ D : Nat) : Int) < 0 ↔ z < 0 := by
    constructor
    · intro h
      by_contra hz
      have : 0 ≤ z * ((2 ^ D : Nat) : Int) := mul_nonneg (by omega) hpos.le
      omega
    · intro h
      exact mul_neg_of_neg_of_pos h hpos
  have habs : (z * ((2 ^ D : Nat) : Int)).natAbs = z.natAbs * 2 ^ D := by
    rw [Int.natAbs_mul, Int.natAbs_ofNat]
  simp only [h0, hneg, habs]

/-- The sum of two whole-number floats whose sum `±k` has `0 < k < 2^24` is the float of the
sum. -/
theorem add_whole {x y : float} {s t : Bool} {a b d1 d2 : Nat}
    (hx : x = fin s (a * 2 ^ d1) (-(d1 : Int))) (hy : y = fin t (b * 2 ^ d2) (-(d2 : Int)))
    (hd1 : d1 ≤ 149) (hd2 : d2 ≤ 149) (u : Bool) (k : Nat)
    (hz : (if s then -1 else 1) * (a : Int) + (if t then -1 else 1) * (b : Int) =
      (if u then -1 else 1) * (k : Int))
    (hk : 0 < k) (hk2 : k < 2 ^ 24) :
    x + y = if u then -(ofNat k) else ofNat k := by
  subst hx hy
  rw [add_def, add_repr, hz]
  have hne : ¬ (if u = true then -1 else 1) * (k : Int) = 0 := by
    cases u <;> simp <;> omega
  have hlt : ((if u = true then -1 else 1) * (k : Int) < 0) ↔ u = true := by
    cases u <;> simp
    omega
  have habs : ((if u = true then -1 else 1) * (k : Int)).natAbs = k := by
    cases u <;> simp
  rw [if_neg hne, habs]
  simp only [hlt]
  rw [round_nat _ k _ hk hk2 (by have := max_le hd1 hd2; omega), ofNat_repr k hk hk2]
  cases u <;> simp [neg_def, neg]


theorem zero_repr : (0 : float) = fin false (0 * 2 ^ 149) (-((149 : Nat) : Int)) := rfl

theorem one_repr : (1 : float) = fin false (1 * 2 ^ 23) (-((23 : Nat) : Int)) := by decide

theorem neg_one_repr : (-1 : float) = fin true (1 * 2 ^ 23) (-((23 : Nat) : Int)) := by decide

theorem neg_ofNat_repr (n : Nat) (h0 : 0 < n) (hn : n < 2 ^ 24) :
    -(ofNat n) = fin true (n * 2 ^ (24 - bitlen 512 n)) (-((24 - bitlen 512 n : Nat) : Int)) := by
  rw [ofNat_repr n h0 hn]
  rfl

/-- `0 + h = h` for a whole number `h`. -/
theorem zero_add_ofNat (n : Nat) (h0 : 0 < n) (hn : n < 2 ^ 24) : 0 + ofNat n = ofNat n :=
  add_whole zero_repr (ofNat_repr n h0 hn) (by norm_num) (by omega) false n (by simp) h0 hn

/-- `0 - h = -h` for a whole number `h`. -/
theorem zero_sub_ofNat (n : Nat) (h0 : 0 < n) (hn : n < 2 ^ 24) : 0 - ofNat n = -(ofNat n) :=
  add_whole zero_repr (neg_ofNat_repr n h0 hn) (by norm_num) (by omega) true n (by simp) h0 hn

/-- `0 - (-h) = h` for a whole number `h`. -/
theorem zero_sub_neg_ofNat (n : Nat) (h0 : 0 < n) (hn : n < 2 ^ 24) :
    0 - -(ofNat n) = ofNat n := by
  show add 0 (neg (neg (ofNat n))) = ofNat n
  rw [neg_neg]
  exact zero_add_ofNat n h0 hn

/-- The segment direction of the ray from `-h` along `+z` is computed without rounding. -/
theorem neg_add_one_sub (n : Nat) (h0 : 0 < n) (hn : n < 2 ^ 24) :
    -(ofNat n) + 1 - -(ofNat n) = 1 := by
  by_cases h1 : n = 1
  · subst h1
    decide
  · have e1 : -(ofNat n) + 1 = -(ofNat (n - 1)) :=
      add_whole (neg_ofNat_repr n h0 hn) one_repr (by omega) (by norm_num) true (n - 1)
        (by simp; omega) (by omega) (by omega)
    rw [e1]
    show add (-(ofNat (n - 1))) (neg (neg (ofNat n))) = 1
    rw [neg_neg]
    exact add_whole (neg_ofNat_repr (n - 1) (by omega) (by omega)) (ofNat_repr n h0 hn)
      (by omega) (by omega) false 1 (by simp; omega) (by norm_num) (by norm_num)

/-- The segment direction of the ray from `h` along `-z` is computed without rounding. -/
theorem add_neg_one_sub (n : Nat) (h0 : 0 < n) (hn : n < 2 ^ 24) :
    ofNat n + -1 - ofNat n = -1 := by
  by_cases h1 : n = 1
  · subst h1
    decide
  · have e1 : ofNat n + -1 = ofNat (n - 1) :=
      add_whole (ofNat_repr n h0 hn) neg_one_repr (by omega) (by norm_num) false (n - 1)
        (by simp; omega) (by omega) (by omega)
    rw [e1]
    exact add_whole (ofNat_repr (n - 1) (by omega) (by omega)) (neg_ofNat_repr n h0 hn)
      (by omega) (by omega) true 1 (by simp; omega) (by norm_num) (by norm_num)

/-- `1 * h = h` for a whole number `h`. -/
theorem one_mul_ofNat (n : Nat) (h0 : 0 < n) (hn : n < 2 ^ 24) : 1 * ofNat n = ofNat n := by
  have hr := ofNat_repr n h0 hn
  rw [one_repr, mul_def]
  conv_lhs => rw [hr]
  simp only [mul]
  have hne : ¬ 1 * 2 ^ 23 * (n * 2 ^ (24 - bitlen 512 n)) = 0 := by positivity
  rw [if_neg hne]
  have e1 : 1 * 2 ^ 23 * (n * 2 ^ (24 - bitlen 512 n)) = n * 2 ^ (23 + (24 - bitlen 512 n)) := by
    rw [pow_add]
    ring
  have e2 : -((23 : Nat) : Int) + -((24 - bitlen 512 n : Nat) : Int) =
      -((23 + (24 - bitlen 512 n) : Nat) : Int) := by
    push_cast
    ring
  rw [e1, e2, round_nat _ n _ h0 hn (by omega)]
  exact hr.symm

theorem zero_mul_ofNat (n : Nat) (h0 : 0 < n) (hn : n < 2 ^ 24) : 0 * ofNat n = 0 := by
  rw [ofNat_repr n h0 hn]
  simp [mul_def, mul, zero_def]

theorem zero_mul_neg_ofNat (n : Nat) (h0 : 0 < n) (hn : n < 2 ^ 24) :
    0 * -(ofNat n) = -0 := by
  rw [neg_ofNat_repr n h0 hn]
  simp [mul_def, mul, zero_def, neg_def, neg]

/-- `(-h) / (-1) = h` for a whole number `h`. -/
theorem neg_ofNat_div_neg_one (n : Nat) (h0 : 0 < n) (hn : n < 2 ^ 24) :
    -(ofNat n) / -1 = ofNat n := by
  have hr := ofNat_repr n h0 hn
  rw [neg_ofNat_repr n h0 hn, neg_one_repr]
  show div _ _ = _
  simp only [div]
  have hb : bitlen 512 (1 * 2 ^ 23) = 24 := by decide
  have h1 : ¬ 1 * 2 ^ 23 = 0 := by norm_num
  have h2 : ¬ n * 2 ^ (24 - bitlen 512 n) = 0 := by positivity
  rw [if_neg h1, if_neg h2, hb]
  have e1 : n * 2 ^ (24 - bitlen 512 n) * 2 ^ (26 + 24) / (1 * 2 ^ 23) =
      n * 2 ^ ((24 - bitlen 512 n) + 27) := by
    have : (2 : Nat) ^ (26 + 24) = 2 ^ 27 * (1 * 2 ^ 23) := by norm_num
    rw [this, ← Nat.mul_assoc, Nat.mul_div_cancel _ (by norm_num), Nat.mul_assoc, ← pow_add]
  have e2 : n * 2 ^ (24 - bitlen 512 n) * 2 ^ (26 + 24) % (1 * 2 ^ 23) = 0 := by
    have : (2 : Nat) ^ (26 + 24) = 2 ^ 27 * (1 * 2 ^ 23) := by norm_num
    rw [this, ← Nat.mul_assoc]
    exact Nat.mul_mod_left _ _
  have e3 : -((24 - bitlen 512 n : Nat) : Int) - -((23 : Nat) : Int) - ((26 + 24 : Nat) : Int) =
      -(((24 - bitlen 512 n) + 27 : Nat) : Int) := by
    push_cast
    ring
  rw [e1, e2, e3]
  simp only [ne_eq, not_true_eq_false, decide_False, Bool.xor_self]
  rw [round_nat _ n _ h0 hn (by omega)]
  exact hr.symm

theorem ofNat_not_lt_zero (n : Nat) (h0 : 0 < n) (hn : n < 2 ^ 24) : ¬ ofNat n < 0 := by
  rw [ofNat_repr n h0 hn]
  show ¬ lt _ _ = true
  simp only [lt, zero_def, Bool.false_eq_true, if_false, decide_eq_true_eq, not_lt]
  rw [Nat.zero_mul, Nat.cast_zero, mul_zero, one_mul]
  exact Int.natCast_nonneg _

end float
/-! ### The ray through the centroid -/

theorem float.negzero_mul_neg_ofNat (n : Nat) (h0 : 0 < n) (hn : n < 2 ^ 24) :
    -0 * -(float.ofNat n) = 0 := by
  rw [float.neg_mul, float.zero_mul_neg_ofNat n h0 hn]
  rfl

/-- From below along `+z`, at a whole-number height, the first edge value is negative. -/
theorem centroid_below_u (n : Nat) (h0 : 0 < n) (hn : n < 2 ^ 24) :
    (⟨⟨1 / 3, 1 / 3, -(float.ofNat n)⟩, ⟨0, 0, 1⟩⟩ : ray_t).tri_u ⟨1, 0, 0⟩ ⟨0, 1, 0⟩ < 0 := by
  simp only [ray_t.tri_u, ScalarTriple, cross, vec3.dot, vec3.add_x, vec3.add_y, vec3.add_z,
    vec3.sub_x, vec3.sub_y, vec3.sub_z]
  rw [float.neg_add_one_sub n h0 hn, float.zero_sub_neg_ofNat n h0 hn]
  have hz : (1 / 3 + 0 - 1 / 3 : float) = 0 := by decide
  have hz2 : ((0 : float) * (1 - 1 / 3) - 0 * (0 - 1 / 3)) = 0 := by decide
  rw [hz, float.zero_mul_ofNat n h0 hn, hz2, float.zero_mul_ofNat n h0 hn]
  decide

/-- From above along `-z`, at a whole-number height, the three edge values are not negative. -/
theorem centroid_above_edges (n : Nat) (h0 : 0 < n) (hn : n < 2 ^ 24) :
    ¬ (⟨⟨1 / 3, 1 / 3, float.ofNat n⟩, ⟨0, 0, -1⟩⟩ : ray_t).tri_u ⟨1, 0, 0⟩ ⟨0, 1, 0⟩ < 0 ∧
    ¬ (⟨⟨1 / 3, 1 / 3, float.ofNat n⟩, ⟨0, 0, -1⟩⟩ : ray_t).tri_v ⟨0, 0, 0⟩ ⟨0, 1, 0⟩ < 0 ∧
    ¬ (⟨⟨1 / 3, 1 / 3, float.ofNat n⟩, ⟨0, 0, -1⟩⟩ : ray_t).tri_w ⟨0, 0, 0⟩ ⟨1, 0, 0⟩ < 0 := by
  simp only [ray_t.tri_u, ray_t.tri_v, ray_t.tri_w, ScalarTriple, cross, vec3.dot, vec3.add_x,
    vec3.add_y, vec3.add_z, vec3.sub_x, vec3.sub_y, vec3.sub_z]
  rw [float.add_neg_one_sub n h0 hn, float.zero_sub_ofNat n h0 hn]
  have hz : (1 / 3 + 0 - 1 / 3 : float) = 0 := by decide
  have hz2 : ((0 : float) * (1 - 1 / 3) - 0 * (0 - 1 / 3)) = 0 := by decide
  have hz3 : ((0 : float) * (0 - 1 / 3) - 0 * (0 - 1 / 3)) = 0 := by decide
  have hz4 : ((0 : float) * (0 - 1 / 3) - 0 * (1 - 1 / 3)) = -0 := by decide
  rw [hz, float.zero_mul_neg_ofNat n h0 hn, hz2, hz3, hz4, float.zero_mul_neg_ofNat n h0 hn,
    float.negzero_mul_neg_ofNat n h0 hn]
  decide

/-- From above along `-z`, at a whole-number height `h`, the quotient of
`intersectSegmentPlane` is `h`. -/
theorem centroid_above_t (n : Nat) (h0 : 0 < n) (hn : n < 2 ^ 24) :
    (⟨⟨1 / 3, 1 / 3, float.ofNat n⟩, ⟨0, 0, -1⟩⟩ : ray_t).segment_t
      ⟨0, 0, 0⟩ ⟨1, 0, 0⟩ ⟨0, 1, 0⟩ = float.ofNat n := by
  have hN : tri_n ⟨0, 0, 0⟩ ⟨1, 0, 0⟩ ⟨0, 1, 0⟩ = ⟨0, 0, 1⟩ := by decide
  simp only [ray_t.segment_t, hN, vec3.dot]
  have h1 : ((0 : float) * 0 + 0 * 0 + 1 * 0) = 0 := by decide
  have h2 : ((0 : float) * (1 / 3) + 0 * (1 / 3)) = 0 := by decide
  have h3 : ((0 : float) * 0 + 0 * 0 + 1 * -1) = -1 := by decide
  rw [h1, h2, h3, float.one_mul_ofNat n h0 hn, float.zero_add_ofNat n h0 hn,
    float.zero_sub_ofNat n h0 hn, float.neg_ofNat_div_neg_one n h0 hn]

/-- C4 as stated fails: for `h = 1` the ray from `(1/3, 1/3, -1)` along `+z` meets the back of
the triangle and is rejected by the first edge test, so no hit with `t = 1` is reported. -/
theorem centroid_ray_from_below_rejected :
    (⟨⟨1 / 3, 1 / 3, -1⟩, ⟨0, 0, 1⟩⟩ : ray_t).intersectTriangle
        ⟨0, 0, 0⟩ ⟨1, 0, 0⟩ ⟨0, 1, 0⟩ ⟨0, 0, 0⟩ = (float.FLT_MAX, ⟨0, 0, 0⟩) ∧
    float.FLT_MAX.ne 1 = true ∧ (0 : float) < 1 := by
  refine ⟨by decide, by decide, by decide⟩

/-- C4, amended: for the triangle `a=(0,0,0)`, `b=(1,0,0)`, `c=(0,1,0)` and every whole number
`h` with `0 < h < 2^24`, the ray from `(1/3, 1/3, -h)` along `+z` meets the back face and is a
no-hit that leaves `geometric_normal` alone, while the ray from `(1/3, 1/3, h)` along `-z`
reports a hit with `t = h` and the normal `(0,0,1)`; at `h = 2^25` the sum `origin + dir` rounds
to `origin`, and the ray from below is reported as a hit with `t = h`. -/
theorem intersectTriangle_centroid (n : Nat) (h0 : 0 < n) (hn : n < 2 ^ 24) (gn : vec3 float) :
    (⟨⟨1 / 3, 1 / 3, -(float.ofNat n)⟩, ⟨0, 0, 1⟩⟩ : ray_t).intersectTriangle
        ⟨0, 0, 0⟩ ⟨1, 0, 0⟩ ⟨0, 1, 0⟩ gn = (float.FLT_MAX, gn) ∧
    (⟨⟨1 / 3, 1 / 3, float.ofNat n⟩, ⟨0, 0, -1⟩⟩ : ray_t).intersectTriangle
        ⟨0, 0, 0⟩ ⟨1, 0, 0⟩ ⟨0, 1, 0⟩ gn = (float.ofNat n, ⟨0, 0, 1⟩) ∧
    (⟨⟨1 / 3, 1 / 3, -33554432⟩, ⟨0, 0, 1⟩⟩ : ray_t).intersectTriangle
        ⟨0, 0, 0⟩ ⟨1, 0, 0⟩ ⟨0, 1, 0⟩ ⟨0, 0, 0⟩ = (33554432, ⟨0, 0, 1⟩) := by
  refine ⟨?_, ?_, by decide⟩
  · rw [intersectTriangle_eq, if_pos (centroid_below_u n h0 hn)]
  · obtain ⟨hu, hv, hw⟩ := centroid_above_edges n h0 hn
    have ht := centroid_above_t n h0 hn
    have hgn : normalize (tri_n ⟨0, 0, 0⟩ ⟨1, 0, 0⟩ ⟨0, 1, 0⟩) = ⟨0, 0, 1⟩ := by decide
    rw [intersectTriangle_eq, if_neg hu, if_neg hv, if_neg hw, ht, hgn,
      if_neg (float.ofNat_not_lt_zero n h0 hn)]

/-- Witness for C4, amended, at `h = 2`. -/
theorem intersectTriangle_centroid_witness :
    0 < 2 ∧ 2 < 2 ^ 24 ∧
    (⟨⟨1 / 3, 1 / 3, -(float.ofNat 2)⟩, ⟨0, 0, 1⟩⟩ : ray_t).intersectTriangle
        ⟨0, 0, 0⟩ ⟨1, 0, 0⟩ ⟨0, 1, 0⟩ ⟨1, 0, 0⟩ = (float.FLT_MAX, ⟨1, 0, 0⟩) ∧
    (⟨⟨1 / 3, 1 / 3, float.ofNat 2⟩, ⟨0, 0, -1⟩⟩ : ray_t).intersectTriangle
        ⟨0, 0, 0⟩ ⟨1, 0, 0⟩ ⟨0, 1, 0⟩ ⟨1, 0, 0⟩ = (float.ofNat 2, ⟨0, 0, 1⟩) :=
  ⟨by norm_num, by norm_num,
    (intersectTriangle_centroid 2 (by norm_num) (by norm_num) ⟨1, 0, 0⟩).1,
    (intersectTriangle_centroid 2 (by norm_num) (by norm_num) ⟨1, 0, 0⟩).2.1⟩

/-! ### `sfrand` -/

/-- Masking with `0x007fffff` keeps the low 23 bits. -/
theorem and_mask_lt (a : Nat) : a &&& 0x007fffff < 2 ^ 23 := by
  have h : a &&& 0x007fffff = a % 2 ^ 23 := Nat.and_pow_two_sub_one_eq_mod a 23
  rw [h]
  exact Nat.mod_lt _ (by norm_num)

/-- Setting bit 30 of a 23-bit number adds `2^30`. -/
theorem or_exponent_eq (m : Nat) (hm : m < 2 ^ 23) : m ||| 0x40000000 = 2 ^ 30 + m := by
  have h := Nat.mul_add_lt_is_or hm 128
  rw [Nat.lor_comm]
  exact h.symm

/-- The single with fraction field `m < 2^23`, exponent field `128` and sign bit `0` has the
value `2 + m/2^22`. -/
theorem float_of_bits_exponent_128 (m : Nat) (hm : m < 2 ^ 23) :
    float_of_bits (m ||| 0x40000000) = some (2 + (m : ℚ) / 2 ^ 22) := by
  rw [or_exponent_eq m hm]
  have hm' : m < 8388608 := by
    have : (2 : Nat) ^ 23 = 8388608 := by norm_num
    omega
  have hs : (2 ^ 30 + m) / 2 ^ 31 % 2 = 0 := by
    norm_num
    omega
  have he : (2 ^ 30 + m) / 2 ^ 23 % 256 = 128 := by
    norm_num
    omega
  have hf : (2 ^ 30 + m) % 2 ^ 23 = m := by
    norm_num
    omega
  unfold float_of_bits
  simp only [hs, he, hf]
  norm_num
  ring

/-- C20: with `m` the low 23 bits of the word built from the two `rand()` values, the single
whose bit pattern is `m | 0x40000000` has the value `2 + m/2^22`, which lies in `[2, 4)`;
`sfrand` returns `m/2^22 - 1`, which lies in `[-1, 1)` and is a multiple `k/2^22` with
`|k| ≤ 2^22`, hence itself a single, so that the float subtraction of `3` is exact. -/
theorem sfrand_value (rand1 rand2 : Nat) :
    ∃ m : Nat, m = (((rand1 <<< 16) ||| rand2) % 2 ^ 32) &&& 0x007fffff ∧
      float_of_bits (m ||| 0x40000000) = some (2 + (m : ℚ) / 2 ^ 22) ∧
      (2 : ℚ) ≤ 2 + (m : ℚ) / 2 ^ 22 ∧ 2 + (m : ℚ) / 2 ^ 22 < 4 ∧
      sfrand rand1 rand2 = some ((m : ℚ) / 2 ^ 22 - 1) ∧
      (-1 : ℚ) ≤ (m : ℚ) / 2 ^ 22 - 1 ∧ (m : ℚ) / 2 ^ 22 - 1 < 1 ∧
      ∃ k : ℤ, |k| ≤ 2 ^ 22 ∧ (m : ℚ) / 2 ^ 22 - 1 = (k : ℚ) / 2 ^ 22 := by
  refine ⟨_, rfl, ?_⟩
  have hm := and_mask_lt (((rand1 <<< 16) ||| rand2) % 2 ^ 32)
  have hbits := float_of_bits_exponent_128 _ hm
  have hsf : sfrand rand1 rand2 =
      some (2 + (((((rand1 <<< 16) ||| rand2) % 2 ^ 32) &&& 0x007fffff : Nat) : ℚ) / 2 ^ 22
        - 3) := by
    show (float_of_bits _).map _ = _
    rw [hbits]
    rfl
  generalize (((rand1 <<< 16) ||| rand2) % 2 ^ 32) &&& 0x007fffff = m at hm hbits hsf ⊢
  have hq0 : (0 : ℚ) ≤ (m : ℚ) := Nat.cast_nonneg m
  have hq1 : (m : ℚ) < 2 ^ 23 := by exact_mod_cast hm
  have hdiv0 : (0 : ℚ) ≤ (m : ℚ) / 2 ^ 22 := div_nonneg hq0 (by norm_num)
  have hdiv1 : (m : ℚ) / 2 ^ 22 < 2 := by
    rw [div_lt_iff₀ (by norm_num)]
    calc (m : ℚ) < 2 ^ 23 := hq1
      _ = 2 * 2 ^ 22 := by norm_num
  refine ⟨hbits, by linarith, by linarith, ?_, by linarith, by linarith, ?_⟩
  · rw [hsf]
    congr 1
    ring
  · refine ⟨(m : ℤ) - 2 ^ 22, ?_, ?_⟩
    · rw [abs_le]
      have h1 : (m : ℤ) < 2 ^ 23 := by exact_mod_cast hm
      have h2 : (0 : ℤ) ≤ (m : ℤ) := Int.natCast_nonneg m
      norm_num at h1
      constructor
      · linarith
      · linarith
    · push_cast
      field_simp
      norm_num

end RayTracer
